import Mathlib

/-!
Verification of the traffic-aware multi-robot navigation engine.

The development shallowly embeds the navigation core: the robot state
machine (models/robot.py), the fleet coordinator with its per-tick
occupied-lanes table (controllers/fleet_manager.py), the time-leased
reservation layer (controllers/traffic_manager.py) and the shortest-path
query of the navigation graph (models/nav_graph.py).

Modelling conventions:
- Python floats are modelled as rationals.
- Python dictionaries are modelled as association lists whose lookup
  returns the most recently written binding (entries are prepended).
- The ambient clock (time.time()) is threaded through the operations
  that read it as an explicit parameter named now or current_time.
- The random task identifier produced by uuid4 is threaded through
  assign_task as an explicit parameter new_task_id.
- The Euclidean lane length (calculate_distance) is kept as an abstract
  rational-valued function of the two endpoint indices because square
  roots of rationals are in general irrational; theorems that need it
  assume only its nonnegativity, which every Euclidean length has.
-/

/-- Lookup in an association list, used to model Python dict access.
Entries are prepended on write, so the first match is the latest write. -/
def lookupKV {α β : Type} [DecidableEq α] : List (α × β) → α → Option β
  | [], _ => none
  | (k, v) :: rest, key => if k = key then some v else lookupKV rest key

/-- The five robot states of models/robot.py. -/
inductive RobotState where
  | Idle
  | Moving
  | Waiting
  | Charging
  | TaskComplete
deriving DecidableEq, Repr

/-- The mutable fields of the Robot class (models/robot.py). -/
structure Robot where
  id : String
  position_idx : ℕ
  position : ℚ × ℚ
  color : String
  state : RobotState
  path : List ℕ
  current_path_index : ℕ
  destination_idx : Option ℕ
  task_id : Option String
  last_update_time : ℚ
  target_position : ℚ × ℚ
  progress : ℚ
  path_blocked : Bool
  battery_level : ℚ
  speed : ℚ
  blocked_time : ℚ
deriving DecidableEq, Repr

/-- Robot.__init__: a freshly created robot (state Idle, battery 100,
default speed 1). -/
def Robot.mk0 (robot_id : String) (position_idx : ℕ) (position : ℚ × ℚ)
    (color : String) (now : ℚ) : Robot :=
  { id := robot_id
    position_idx := position_idx
    position := position
    color := color
    state := RobotState.Idle
    path := []
    current_path_index := 0
    destination_idx := none
    task_id := none
    last_update_time := now
    target_position := position
    progress := 0
    path_blocked := false
    battery_level := 100
    speed := 1
    blocked_time := 0 }

/-- Robot.assign_task. The Python method first stores the destination,
path, path index and a fresh task id, and only then validates that the
path starts at the current vertex, raising ValueError otherwise; the
stored fields survive the raise. The returned pair is the robot object
after the call together with the outcome. -/
def Robot.assign_task (r : Robot) (destination_idx : ℕ) (path : List ℕ)
    (new_task_id : String) : Robot × Except String Unit :=
  let r := { r with
    destination_idx := some destination_idx
    path := path
    current_path_index := 0
    task_id := some new_task_id }
  match path.head? with
  | none => (r, Except.error "IndexError")
  | some h =>
    if r.position_idx ≠ h then
      (r, Except.error ("Robot " ++ r.id ++ " is not at the start of the assigned path"))
    else if path.length = 1 then
      ({ r with
          state := RobotState.TaskComplete
          path_blocked := false
          blocked_time := 0 },
        Except.ok ())
    else
      ({ r with
          state := RobotState.Moving
          progress := 0
          path_blocked := false
          blocked_time := 0 },
        Except.ok ())

/-- Robot.get_next_vertex. -/
def Robot.get_next_vertex (r : Robot) : Option ℕ :=
  if r.path = [] ∨ r.current_path_index ≥ r.path.length - 1 then none
  else some (r.path.getD (r.current_path_index + 1) 0)

/-- Robot.get_current_lane: defined only while Moving; a Waiting robot
reports no lane. -/
def Robot.get_current_lane (r : Robot) : Option (ℕ × ℕ) :=
  if r.state ≠ RobotState.Moving ∨ r.path = [] ∨ r.current_path_index ≥ r.path.length - 1 then
    none
  else
    some (r.path.getD r.current_path_index 0, r.path.getD (r.current_path_index + 1) 0)

/-- Robot.set_waiting. -/
def Robot.set_waiting (r : Robot) (now : ℚ) : Robot :=
  if r.state ≠ RobotState.Waiting then
    { r with state := RobotState.Waiting, blocked_time := now }
  else r

/-- Robot.resume_movement. -/
def Robot.resume_movement (r : Robot) : Robot :=
  if r.state = RobotState.Waiting then
    { r with state := RobotState.Moving, blocked_time := 0 }
  else r

/-- Robot.update: one tick of the per-robot state machine. Returns the
updated robot together with the changed flag. -/
def Robot.update (r : Robot) (delta_time : ℚ)
    (get_vertex_coords : ℕ → ℚ × ℚ)
    (calculate_distance : ℕ → ℕ → ℚ)
    ( is_lane_blocked : ℕ → ℕ → String → Bool)
    (now : ℚ) : Robot × Bool :=
  if ¬ (r.state = RobotState.Moving ∨ r.state = RobotState.Waiting) then
    (r, false)
  else
    -- If robot is waiting, check if path is still blocked
    let afterWait : Option Robot :=
      if r.state = RobotState.Waiting then
        let current_vertex := r.path.getD r.current_path_index 0
        match r.get_next_vertex with
        | some next_vertex =>
          if ¬ is_lane_blocked current_vertex next_vertex r.id then
            some r.resume_movement
          else none
        | none => none
      else some r
    match afterWait with
    | none => (r, false)
    | some r =>
      -- Robot is moving
      if r.current_path_index < r.path.length - 1 then
        let current_vertex_idx := r.path.getD r.current_path_index 0
        let next_vertex_idx := r.path.getD (r.current_path_index + 1) 0
        if is_lane_blocked current_vertex_idx next_vertex_idx r.id then
          (r.set_waiting now, true)
        else
          let start_pos := get_vertex_coords current_vertex_idx
          let end_pos := get_vertex_coords next_vertex_idx
          let total_distance := calculate_distance current_vertex_idx next_vertex_idx
          let distance_to_move := r.speed * delta_time
          let progress_increment :=
            if total_distance > 0 then distance_to_move / total_distance else 1
          let progress := min 1 (max 0 (r.progress + progress_increment))
          let position :=
            (start_pos.1 + (end_pos.1 - start_pos.1) * progress,
             start_pos.2 + (end_pos.2 - start_pos.2) * progress)
          if progress ≥ 1 then
            let r := { r with
              position := end_pos
              position_idx := next_vertex_idx
              current_path_index := r.current_path_index + 1
              progress := 0 }
            if r.current_path_index ≥ r.path.length - 1 then
              ({ r with state := RobotState.TaskComplete }, true)
            else
              ({ r with battery_level := max 0 (r.battery_level - 1/100 * distance_to_move) },
                true)
          else
            ({ r with
                position := position
                progress := progress
                battery_level := max 0 (r.battery_level - 1/100 * distance_to_move) },
              true)
      else
        (r, false)

/-- The robot resulting from Robot.update, without the changed flag. -/
def Robot.updateR (r : Robot) (delta_time : ℚ)
    (get_vertex_coords : ℕ → ℚ × ℚ)
    (calculate_distance : ℕ → ℕ → ℚ)
    ( is_lane_blocked : ℕ → ℕ → String → Bool)
    (now : ℚ) : Robot :=
  (r.update delta_time get_vertex_coords calculate_distance is_lane_blocked now).1

/-- The occupied-lanes table of the FleetManager: lane to robot id. -/
abbrev OccMap := List ((ℕ × ℕ) × String)

/-- The relevant state of the FleetManager: the insertion-ordered robot
collection and the occupied-lanes table. -/
structure FleetManager where
  robots : List Robot
  occupied_lanes : OccMap
deriving DecidableEq, Repr

/-- FleetManager.is_lane_blocked: true iff the occupied-lanes table maps
the lane to a robot id different from the requester. -/
def is_lane_blocked (occupied_lanes : OccMap) (start_idx end_idx : ℕ)
    (robot_id : String) : Bool :=
  match lookupKV occupied_lanes (start_idx, end_idx) with
  | some blocking_robot_id => blocking_robot_id != robot_id
  | none => false

/-- The occupied-lanes rebuild at the top of FleetManager.update_robots. -/
def snapshotLanes (robots : List Robot) : OccMap :=
  robots.foldl
    (fun occ r =>
      match r.get_current_lane with
      | some lane => (lane, r.id) :: occ
      | none => occ)
    []

/-- One iteration of the per-robot loop of FleetManager.update_robots:
update the robot against the current occupied-lanes table, then upsert
its lane when the update reported a change. -/
def processRobot (get_vertex_coords : ℕ → ℚ × ℚ) (calculate_distance : ℕ → ℕ → ℚ)
    (delta_time now : ℚ) (acc : List Robot × OccMap) (r : Robot) : List Robot × OccMap :=
  let (done, occ) := acc
  let res := r.update delta_time get_vertex_coords calculate_distance
    (fun a b rid => is_lane_blocked occ a b rid) now
  let occNew :=
    if res.2 then
      match res.1.get_current_lane with
      | some lane => (lane, res.1.id) :: occ
      | none => occ
    else occ
  (done ++ [res.1], occNew)

/-- The per-robot loop of FleetManager.update_robots over a robot list. -/
def processRobots (get_vertex_coords : ℕ → ℚ × ℚ) (calculate_distance : ℕ → ℕ → ℚ)
    (delta_time now : ℚ) (robots : List Robot) (acc : List Robot × OccMap) :
    List Robot × OccMap :=
  robots.foldl (processRobot get_vertex_coords calculate_distance delta_time now) acc

/-- FleetManager.update_robots: clear and rebuild the occupied-lanes
table from every current lane, then advance every robot in insertion
order against the evolving table. -/
def update_robots (get_vertex_coords : ℕ → ℚ × ℚ) (calculate_distance : ℕ → ℕ → ℚ)
    (delta_time now : ℚ) (fm : FleetManager) : FleetManager :=
  let occ0 := snapshotLanes fm.robots
  let res := processRobots get_vertex_coords calculate_distance delta_time now fm.robots ([], occ0)
  { robots := res.1, occupied_lanes := res.2 }

/-- Robot lookup by id in a FleetManager. -/
def getRobot (fm : FleetManager) (robot_id : String) : Option Robot :=
  fm.robots.find? (fun r => r.id == robot_id)

/-- The reservation tables of the TrafficManager. -/
structure TrafficManager where
  intersection_slots : List (ℕ × (String × ℚ))
  lane_reservations : List ((ℕ × ℕ) × (String × ℚ))
deriving DecidableEq, Repr

/-- TrafficManager.reserve_lane: refuse when another robot holds a
still-live lease, otherwise record (robot id, now + duration). -/
def reserve_lane (tm : TrafficManager) (lane : ℕ × ℕ) (robot_id : String)
    (duration current_time : ℚ) : TrafficManager × Bool :=
  match lookupKV tm.lane_reservations lane with
  | some (reserved_robot_id, expiry_time) =>
    if reserved_robot_id ≠ robot_id ∧ expiry_time > current_time then
      (tm, false)
    else
      ({ tm with lane_reservations :=
          (lane, (robot_id, current_time + duration)) :: tm.lane_reservations }, true)
  | none =>
    ({ tm with lane_reservations :=
        (lane, (robot_id, current_time + duration)) :: tm.lane_reservations }, true)

/-- TrafficManager.reserve_intersection: same lease rule on vertices. -/
def reserve_intersection (tm : TrafficManager) (vertex_idx : ℕ) (robot_id : String)
    (duration current_time : ℚ) : TrafficManager × Bool :=
  match lookupKV tm.intersection_slots vertex_idx with
  | some (reserved_robot_id, expiry_time) =>
    if reserved_robot_id ≠ robot_id ∧ expiry_time > current_time then
      (tm, false)
    else
      ({ tm with intersection_slots :=
          (vertex_idx, (robot_id, current_time + duration)) :: tm.intersection_slots }, true)
  | none =>
    ({ tm with intersection_slots :=
        (vertex_idx, (robot_id, current_time + duration)) :: tm.intersection_slots }, true)

/-- A live lease on a lane held by a robot other than the requester. -/
def laneBlockedNow (tm : TrafficManager) (lane : ℕ × ℕ) (robot_id : String)
    (current_time : ℚ) : Bool :=
  match lookupKV tm.lane_reservations lane with
  | some (reserved_robot_id, expiry_time) =>
    decide (reserved_robot_id ≠ robot_id) && decide (expiry_time > current_time)
  | none => false

/-- A live lease on a vertex held by a robot other than the requester. -/
def vertexBlockedNow (tm : TrafficManager) (vertex_idx : ℕ) (robot_id : String)
    (current_time : ℚ) : Bool :=
  match lookupKV tm.intersection_slots vertex_idx with
  | some (reserved_robot_id, expiry_time) =>
    decide (reserved_robot_id ≠ robot_id) && decide (expiry_time > current_time)
  | none => false

/-- The loop of TrafficManager.check_path_availability: for every
consecutive pair the lane is checked, then the start vertex of that
pair; the final vertex of the path is never checked. -/
def checkLanesFrom (tm : TrafficManager) (robot_id : String) (current_time : ℚ) :
    List ℕ → Bool
  | a :: b :: rest =>
    if laneBlockedNow tm (a, b) robot_id current_time then false
    else if vertexBlockedNow tm a robot_id current_time then false
    else checkLanesFrom tm robot_id current_time (b :: rest)
  | _ => true

/-- TrafficManager.check_path_availability. -/
def check_path_availability (tm : TrafficManager) (path : List ℕ) (robot_id : String)
    (current_time : ℚ) : Bool :=
  if path.length < 2 then true
  else checkLanesFrom tm robot_id current_time path

/-- TrafficManager.process_waiting_robots: for each Waiting robot, read
its current lane and resume it when the lane is not blocked. -/
def process_waiting_robots (occupied_lanes : OccMap) (robots : List Robot) : List Robot :=
  robots.map (fun r =>
    if r.state = RobotState.Waiting then
      match r.get_current_lane with
      | none => r
      | some lane =>
        if ¬ is_lane_blocked occupied_lanes lane.1 lane.2 r.id then
          r.resume_movement
        else r
    else r)

/-- The navigation graph (models/nav_graph.py): a vertex count, the
ordered lane list as directed endpoint pairs, and the lane-length
function caching calculate_distance. Vertex coordinates are abstracted
into calculate_distance, whose Euclidean values are nonnegative. -/
structure NavGraph where
  numVertices : ℕ
  lanes : List (ℕ × ℕ)
  calculate_distance : ℕ → ℕ → ℚ

/-- NavGraph.build_adjacency_list, read at one vertex: the neighbors of
a vertex with the cached lane lengths, in lane order. -/
def NavGraph.adjacency_list (g : NavGraph) (v : ℕ) : List (ℕ × ℚ) :=
  g.lanes.filterMap (fun lane =>
    if lane.1 = v then some (lane.2, g.calculate_distance lane.1 lane.2) else none)

/-- The first element of a nonempty list minimizing the tentative
distance, mirroring min over the unvisited set keyed by distances. -/
def argminList (dist : ℕ → WithTop ℚ) (x : ℕ) (xs : List ℕ) : ℕ :=
  xs.foldl (fun acc y => if dist y < dist acc then y else acc) x

/-- One relaxation of the Dijkstra neighbor loop: shorten the tentative
distance of the neighbor through the current vertex when possible. -/
def relaxStep (current : ℕ) (dp : (ℕ → WithTop ℚ) × (ℕ → Option ℕ)) (nl : ℕ × ℚ) :
    (ℕ → WithTop ℚ) × (ℕ → Option ℕ) :=
  let alternative_route := dp.1 current + (nl.2 : WithTop ℚ)
  if alternative_route < dp.1 nl.1 then
    (Function.update dp.1 nl.1 alternative_route, Function.update dp.2 nl.1 (some current))
  else dp

/-- The neighbor loop of Dijkstra: relax every outgoing lane of the
current vertex, updating tentative distances and predecessors. -/
def relaxNeighbors (current : ℕ) (adjList : List (ℕ × ℚ))
    (dp : (ℕ → WithTop ℚ) × (ℕ → Option ℕ)) : (ℕ → WithTop ℚ) × (ℕ → Option ℕ) :=
  adjList.foldl (relaxStep current) dp

/-- The main loop of NavGraph.find_shortest_path. The fuel argument is
initialized to the number of unvisited vertices; every non-breaking
iteration removes exactly one vertex, so the fuel never runs out before
the unvisited list empties. -/
def dijkstraLoop (g : NavGraph) (end_idx : ℕ) :
    ℕ → List ℕ → (ℕ → WithTop ℚ) → (ℕ → Option ℕ) → (ℕ → WithTop ℚ) × (ℕ → Option ℕ)
  | _, [], dist, prev => (dist, prev)
  | 0, _ :: _, dist, prev => (dist, prev)
  | fuel + 1, x :: xs, dist, prev =>
    let current := argminList dist x xs
    if current = end_idx ∨ dist current = ⊤ then (dist, prev)
    else
      let dp := relaxNeighbors current (g.adjacency_list current) (dist, prev)
      dijkstraLoop g end_idx fuel ((x :: xs).erase current) dp.1 dp.2

/-- The reconstruction loop of NavGraph.find_shortest_path: follow the
predecessor map until it gives none. The fuel bounds the chain length;
it is chosen larger than any acyclic predecessor chain can be. -/
def buildChainList (prev : ℕ → Option ℕ) : ℕ → ℕ → List ℕ
  | 0, v => [v]
  | fuel + 1, v =>
    match prev v with
    | none => [v]
    | some c => v :: buildChainList prev fuel c

/-- NavGraph.find_shortest_path: Dijkstra over the adjacency list with
early exit at the target, followed by predecessor-chain reconstruction. -/
def NavGraph.find_shortest_path (g : NavGraph) (start_idx end_idx : ℕ) : List ℕ :=
  if start_idx = end_idx then [start_idx]
  else
    let dist0 : ℕ → WithTop ℚ := Function.update (fun _ => (⊤ : WithTop ℚ)) start_idx ((0 : ℚ) : WithTop ℚ)
    let prev0 : ℕ → Option ℕ := fun _ => none
    let dp := dijkstraLoop g end_idx g.numVertices (List.range g.numVertices) dist0 prev0
    match dp.2 end_idx with
    | none => []
    | some _ => (buildChainList dp.2 (g.numVertices + 1) end_idx).reverse

/-- Consecutive vertices of the list are all joined by directed lanes. -/
def chainedLanes (g : NavGraph) : List ℕ → Bool
  | a :: b :: rest => decide ((a, b) ∈ g.lanes) && chainedLanes g (b :: rest)
  | _ => true

/-- A directed path through the graph from s to e. -/
def IsGraphPath (g : NavGraph) (s e : ℕ) (q : List ℕ) : Prop :=
  q.head? = some s ∧ q.getLast? = some e ∧ chainedLanes g q = true

/-- The sum of the lane lengths along a vertex list. -/
def pathCost (g : NavGraph) : List ℕ → ℚ
  | a :: b :: rest => g.calculate_distance a b + pathCost g (b :: rest)
  | _ => 0

/-! Concrete scenarios used by the claims. -/

/-- Coordinates for the shared-lane scenario: vertex 0 at the origin and
vertex 1 at (2, 0), so the single lane (0, 1) has length 2. -/
def coordsC1 : ℕ → ℚ × ℚ := fun i => if i = 0 then (0, 0) else (2, 0)

/-- Lane length for the shared-lane scenario. -/
def cdistC1 : ℕ → ℕ → ℚ := fun _ _ => 2

/-- First robot of the shared-lane scenario, already assigned the path
0 to 1. -/
def r1C1 : Robot := (Robot.assign_task (Robot.mk0 "R1" 0 (0, 0) "" 0) 1 [0, 1] "t1").1

/-- Second robot of the shared-lane scenario, assigned the same path at
the same moment. -/
def r2C1 : Robot := (Robot.assign_task (Robot.mk0 "R2" 0 (0, 0) "" 0) 1 [0, 1] "t2").1

/-- The fleet of the shared-lane scenario just after both simultaneous
assignments, before any tick. -/
def fleetC1 : FleetManager := { robots := [r1C1, r2C1], occupied_lanes := [] }

/-- The fleet after n ticks of one second each. -/
def traceC1 : ℕ → FleetManager
  | 0 => fleetC1
  | n + 1 => update_robots coordsC1 cdistC1 1 0 (traceC1 n)

/-- Coordinates for the motion scenario: vertices at (0,0), (2,0) and
(5,0), giving segment lengths 2 and 3. -/
def coordsC4 : ℕ → ℚ × ℚ := fun i => if i = 0 then (0, 0) else if i = 1 then (2, 0) else (5, 0)

/-- Lane lengths for the motion scenario. -/
def cdistC4 : ℕ → ℕ → ℚ := fun a b =>
  if (a, b) = (0, 1) then 2 else if (a, b) = (1, 2) then 3 else 0

/-- The never-blocked predicate of the motion scenario. -/
def blkFree : ℕ → ℕ → String → Bool := fun _ _ _ => false

/-- The motion-scenario robot: speed 1, assigned the two-segment path
0, 1, 2. -/
def robotC4 : Robot := (Robot.assign_task (Robot.mk0 "R" 0 (0, 0) "" 0) 2 [0, 1, 2] "t").1

/-- One unblocked tick of the motion scenario. -/
def updC4 (d : ℚ) (r : Robot) : Robot := r.updateR d coordsC4 cdistC4 blkFree 0

/-- A sequence of unblocked ticks of the motion scenario. -/
def runC4 (ds : List ℚ) (r : Robot) : Robot := ds.foldl (fun r d => updC4 d r) r

/-- Membership of a point in the closed segment from a to b, expressed
by the interpolation parameter. -/
def onSeg (a b p : ℚ × ℚ) : Prop :=
  ∃ t : ℚ, 0 ≤ t ∧ t ≤ 1 ∧ p = (a.1 + (b.1 - a.1) * t, a.2 + (b.2 - a.2) * t)

/-- State of the motion-scenario robot after s accumulated seconds on
the first segment; at s = 2 it stands on vertex 1. -/
def phase1At (s : ℚ) (r : Robot) : Prop :=
  r.path = [0, 1, 2] ∧ r.speed = 1 ∧
    (if s < 2 then
      r.state = RobotState.Moving ∧ r.current_path_index = 0 ∧ r.progress = s / 2 ∧
        r.position = (s, 0) ∧ r.position_idx = 0
    else
      r.state = RobotState.Moving ∧ r.current_path_index = 1 ∧ r.progress = 0 ∧
        r.position = (2, 0) ∧ r.position_idx = 1)

/-- State of the motion-scenario robot after s accumulated seconds on
the second segment; at s = 3 the task is complete. -/
def phase2At (s : ℚ) (r : Robot) : Prop :=
  r.path = [0, 1, 2] ∧ r.speed = 1 ∧
    (if s < 3 then
      r.state = RobotState.Moving ∧ r.current_path_index = 1 ∧ r.progress = s / 3 ∧
        r.position = (2 + s, 0) ∧ r.position_idx = 1
    else
      r.state = RobotState.TaskComplete ∧ r.current_path_index = 2 ∧ r.progress = 0 ∧
        r.position = (5, 0) ∧ r.position_idx = 2)

/-- A Waiting robot used to exhibit the dead release path of
process_waiting_robots: it waits on the free lane (0, 1). -/
def rWaitC3 : Robot :=
  { (Robot.assign_task (Robot.mk0 "R1" 0 (0, 0) "" 0) 1 [0, 1] "t1").1 with
      state := RobotState.Waiting }

/-- An Idle robot holding leftovers of an earlier task, used to exhibit
the partial mutation performed by a rejected assign_task. -/
def rIdleC5 : Robot :=
  { Robot.mk0 "R1" 0 (0, 0) "" 0 with
      path := [7, 8]
      destination_idx := some 8
      task_id := some "old" }

/-- A Moving robot used to show that Robot.assign_task makes no state
check. -/
def rMovC6 : Robot := (Robot.assign_task (Robot.mk0 "R1" 0 (0, 0) "" 0) 1 [0, 1] "t1").1

/-- A fleet holding the Moving robot of the state-check scenario. -/
def fleetC6 : FleetManager := { robots := [rMovC6], occupied_lanes := [] }

/-- FleetManager.assign_task: reject unknown robots, robots that are
Moving or Waiting, and unreachable destinations; otherwise compute the
shortest path and delegate to Robot.assign_task, catching its raise
(the partially mutated robot object is kept either way). -/
def FleetManager.assign_task (fm : FleetManager) (g : NavGraph) (robot_id : String)
    (destination_idx : ℕ) (new_task_id : String) : FleetManager × Bool :=
  match fm.robots.find? (fun r => r.id == robot_id) with
  | none => (fm, false)
  | some robot =>
    if robot.state = RobotState.Moving ∨ robot.state = RobotState.Waiting then
      (fm, false)
    else
      let path := g.find_shortest_path robot.position_idx destination_idx
      if path = [] then (fm, false)
      else
        let res := robot.assign_task destination_idx path new_task_id
        let robots := fm.robots.map (fun r => if r.id == robot_id then res.1 else r)
        match res.2 with
        | Except.ok _ => ({ fm with robots := robots }, true)
        | Except.error _ => ({ fm with robots := robots }, false)

/-- Reservation table with one lease: lane (0, 1) held by R1 until 1. -/
def tmC7 : TrafficManager :=
  { intersection_slots := [], lane_reservations := [((0, 1), ("R1", 1))] }

/-- Reservation table with a live foreign lease on vertex 1 only. -/
def tmC8 : TrafficManager :=
  { intersection_slots := [(1, ("RX", 100))], lane_reservations := [] }

/-- Coordinates for the single-lane arrival scenario. -/
def coordsC10 : ℕ → ℚ × ℚ := fun i => if i = 0 then (0, 0) else (1, 0)

/-- Lane length for the single-lane arrival scenario. -/
def cdistC10 : ℕ → ℕ → ℚ := fun _ _ => 1

/-- A robot one unblocked tick away from completing its one-lane task. -/
def rArrC10 : Robot := (Robot.assign_task (Robot.mk0 "RA" 0 (0, 0) "" 0) 1 [0, 1] "ta").1

/-- Reachability with accumulated cost along directed lanes. -/
inductive Reaches (g : NavGraph) (s : ℕ) : ℕ → ℚ → Prop where
  | refl : Reaches g s s 0
  | step : ∀ {v c w l}, Reaches g s v c → (w, l) ∈ g.adjacency_list v → Reaches g s w (c + l)

/-- Reachability whose every stepped-from vertex lies in S. -/
inductive ReachesVia (g : NavGraph) (S : ℕ → Prop) (s : ℕ) : ℕ → ℚ → Prop where
  | refl : ReachesVia g S s s 0
  | step : ∀ {v c w l}, ReachesVia g S s v c → S v → (w, l) ∈ g.adjacency_list v →
      ReachesVia g S s w (c + l)

/-- The predecessor chain from a vertex down to a root with no
predecessor. -/
inductive Chain (prev : ℕ → Option ℕ) : ℕ → List ℕ → Prop where
  | nil : ∀ v, prev v = none → Chain prev v [v]
  | cons : ∀ v c L, prev v = some c → Chain prev c L → Chain prev v (v :: L)

/-- The loop invariant of dijkstraLoop. Visited means a vertex below the
vertex count that is no longer unvisited. -/
structure DijkInv (g : NavGraph) (s e : ℕ) (unvisited : List ℕ)
    (dist : ℕ → WithTop ℚ) (prev : ℕ → Option ℕ) : Prop where
  unvis_sub : ∀ v ∈ unvisited, v < g.numVertices
  unvis_nodup : unvisited.Nodup
  end_mem : e ∈ unvisited
  start_zero : dist s = ((0 : ℚ) : WithTop ℚ)
  dist_lt_top : ∀ v, dist v ≠ ⊤ → v < g.numVertices
  sound : ∀ v (c : ℚ), dist v = (c : WithTop ℚ) → Reaches g s v c
  visited_relaxed : ∀ u, u < g.numVertices → u ∉ unvisited →
    ∀ x l, (x, l) ∈ g.adjacency_list u → dist x ≤ dist u + (l : WithTop ℚ)
  visited_opt : ∀ u, u < g.numVertices → u ∉ unvisited →
    ∀ c : ℚ, Reaches g s u c → dist u ≤ (c : WithTop ℚ)
  prev_link : ∀ v c, prev v = some c → c < g.numVertices ∧ c ∉ unvisited ∧
    ∃ l : ℚ, (v, l) ∈ g.adjacency_list c ∧ dist v = dist c + (l : WithTop ℚ) ∧ dist c ≠ ⊤
  prev_none : ∀ v, prev v = none → dist v ≠ ⊤ → v = s
  chain : ∀ v, dist v ≠ ⊤ → ∃ L, Chain prev v L ∧ L.getLast? = some s ∧ L.Nodup ∧
    ∀ x ∈ L, dist x ≠ ⊤ ∧ x < g.numVertices
/-- The invariant carried through the relaxation fold at the pop of
current: the snapshot dist0 is the tentative distance map at pop time,
and unvisited2 is the unvisited list after removing current. -/
structure RelaxState (g : NavGraph) (s current : ℕ) (unvisited2 : List ℕ)
    (dist0 : ℕ → WithTop ℚ) (dp : (ℕ → WithTop ℚ) × (ℕ → Option ℕ)) : Prop where
  start_zero : dp.1 s = ((0 : ℚ) : WithTop ℚ)
  dist_lt_top : ∀ v, dp.1 v ≠ ⊤ → v < g.numVertices
  sound : ∀ v (c : ℚ), dp.1 v = (c : WithTop ℚ) → Reaches g s v c
  visited_opt : ∀ u, u < g.numVertices → u ∉ unvisited2 →
    ∀ c : ℚ, Reaches g s u c → dp.1 u ≤ (c : WithTop ℚ)
  prev_link : ∀ v c, dp.2 v = some c → c < g.numVertices ∧ c ∉ unvisited2 ∧
    ∃ l : ℚ, (v, l) ∈ g.adjacency_list c ∧ dp.1 v = dp.1 c + (l : WithTop ℚ) ∧ dp.1 c ≠ ⊤
  prev_none : ∀ v, dp.2 v = none → dp.1 v ≠ ⊤ → v = s
  chain : ∀ v, dp.1 v ≠ ⊤ → ∃ L, Chain dp.2 v L ∧ L.getLast? = some s ∧ L.Nodup ∧
    ∀ x ∈ L, dp.1 x ≠ ⊤ ∧ x < g.numVertices
  frozen : ∀ u, u < g.numVertices → u ∉ unvisited2 → dp.1 u = dist0 u
  mono : ∀ v, dp.1 v ≤ dist0 v

/-- The guarantees of dijkstraLoop used after loop exit: the predecessor
links carry exact lane lengths, chains reach back to the start, and the
tentative distance of the target bounds every reachability cost. -/
structure DijkPost (g : NavGraph) (s e : ℕ)
    (dp : (ℕ → WithTop ℚ) × (ℕ → Option ℕ)) : Prop where
  start_zero : dp.1 s = ((0 : ℚ) : WithTop ℚ)
  prev_link : ∀ v c, dp.2 v = some c → ∃ l : ℚ, (v, l) ∈ g.adjacency_list c ∧
    dp.1 v = dp.1 c + (l : WithTop ℚ) ∧ dp.1 c ≠ ⊤
  prev_none : ∀ v, dp.2 v = none → dp.1 v ≠ ⊤ → v = s
  chain : ∀ v, dp.1 v ≠ ⊤ → ∃ L, Chain dp.2 v L ∧ L.getLast? = some s ∧ L.Nodup ∧
    ∀ x ∈ L, dp.1 x ≠ ⊤ ∧ x < g.numVertices
  opt_end : ∀ c : ℚ, Reaches g s e c → dp.1 e ≤ (c : WithTop ℚ)

/-- A concrete three-vertex chain graph for exercising the shortest-path
theorem: lanes 0 to 1 and 1 to 2, both of length 1. -/
def gC2 : NavGraph := ⟨3, [(0, 1), (1, 2)], fun _ _ => 1⟩

deriving instance DecidableEq for Except

/-! Theorems. -/

/-- Claim C3. The claim says process_waiting_robots resumes every
Waiting robot whose pending lane is not blocked. In the code the lane of
a Waiting robot is read through get_current_lane, which returns none
whenever the state is not Moving, so the resume branch is unreachable:
the Waiting robot below waits on lane (0, 1), the occupied-lanes table
is empty, is_lane_blocked reports the lane free, and the robot is still
Waiting after the call. -/
theorem c3_process_waiting_never_resumes :
    process_waiting_robots [] [rWaitC3] = [rWaitC3] ∧
    rWaitC3.state = RobotState.Waiting ∧
    rWaitC3.path = [0, 1] ∧
    rWaitC3.get_current_lane = none ∧
    is_lane_blocked [] 0 1 "R1" = false := by decide

/-- Claim C5. A call of Robot.assign_task rejected because the path does
not start at the current vertex is not atomic: the path, destination and
task id fields already hold the new values after the raising call, while
only state and progress are untouched. -/
theorem c5_rejected_assign_task_mutates :
    (Robot.assign_task rIdleC5 2 [1, 2] "nt").2 ≠ Except.ok () ∧
    rIdleC5.position_idx = 0 ∧
    (Robot.assign_task rIdleC5 2 [1, 2] "nt").1.path = [1, 2] ∧
    rIdleC5.path = [7, 8] ∧
    (Robot.assign_task rIdleC5 2 [1, 2] "nt").1.destination_idx = some 2 ∧
    rIdleC5.destination_idx = some 8 ∧
    (Robot.assign_task rIdleC5 2 [1, 2] "nt").1.task_id = some "nt" ∧
    rIdleC5.task_id = some "old" ∧
    (Robot.assign_task rIdleC5 2 [1, 2] "nt").1.state = rIdleC5.state ∧
    (Robot.assign_task rIdleC5 2 [1, 2] "nt").1.progress = rIdleC5.progress := by decide

/-- Claim C6, counterexample. Robot.assign_task performs no state
precondition check: called directly on a Moving robot with a path that
starts at its current vertex, the call succeeds instead of failing. -/
theorem c6_counterexample_robot_assign_accepts_while_moving :
    rMovC6.state = RobotState.Moving ∧
    (Robot.assign_task rMovC6 1 [0, 1] "t2").2 = Except.ok () ∧
    (Robot.assign_task rMovC6 1 [0, 1] "t2").1.task_id = some "t2" := by decide

/-- Claim C6, amended. The Moving-or-Waiting precondition is enforced by
FleetManager.assign_task, which rejects the request (returns false and
leaves the fleet unchanged) before touching the robot; Robot.assign_task
itself has no state check. -/
theorem c6_fleet_assign_rejects_moving_or_waiting
    (fm : FleetManager) (g : NavGraph) (robot_id : String) (destination_idx : ℕ)
    (new_task_id : String) (robot : Robot)
    (hfind : fm.robots.find? (fun r => r.id == robot_id) = some robot)
    (hstate : robot.state = RobotState.Moving ∨ robot.state = RobotState.Waiting) :
    FleetManager.assign_task fm g robot_id destination_idx new_task_id = (fm, false) := by
  unfold FleetManager.assign_task
  rw [hfind]
  simp only [if_pos hstate]

/-- Claim C6, witness: a concrete fleet whose only robot is Moving. -/
theorem c6_witness :
    FleetManager.assign_task fleetC6 (NavGraph.mk 2 [(0, 1)] (fun _ _ => 1)) "R1" 1 "t9" =
      (fleetC6, false) :=
  c6_fleet_assign_rejects_moving_or_waiting fleetC6 _ "R1" 1 "t9" rMovC6 (by decide)
    (Or.inl (by decide))

/-- Helper: distinct robot states are unequal (evaluation lemma). -/
@[simp] theorem rs_mw : (RobotState.Moving = RobotState.Waiting) = False := by simp

/-- Helper evaluation lemma. -/
@[simp] theorem rs_wm : (RobotState.Waiting = RobotState.Moving) = False := by simp

/-- Helper evaluation lemma. -/
@[simp] theorem rs_tm : (RobotState.TaskComplete = RobotState.Moving) = False := by simp

/-- Helper evaluation lemma. -/
@[simp] theorem rs_tw : (RobotState.TaskComplete = RobotState.Waiting) = False := by simp

/-- Helper evaluation lemma. -/
@[simp] theorem rs_im : (RobotState.Idle = RobotState.Moving) = False := by simp

/-- Helper evaluation lemma. -/
@[simp] theorem rs_iw : (RobotState.Idle = RobotState.Waiting) = False := by simp

/-- Helper evaluation lemma. -/
@[simp] theorem rs_mt : (RobotState.Moving = RobotState.TaskComplete) = False := by simp

/-- Helper evaluation lemma. -/
@[simp] theorem rs_wt : (RobotState.Waiting = RobotState.TaskComplete) = False := by simp

/-- Helper: string literals used by the scenarios (evaluation lemma). -/
@[simp] theorem str_r1_r2 : ("R1" = "R2") = False := by decide

/-- Helper evaluation lemma. -/
@[simp] theorem str_r2_r1 : ("R2" = "R1") = False := by decide

/-- Helper evaluation lemma. -/
@[simp] theorem strb_r2_r1 : (("R2" : String) != "R1") = true := by decide

/-- Helper evaluation lemma. -/
@[simp] theorem strb_r1_r2 : (("R1" : String) != "R2") = true := by decide

/-- Helper evaluation lemma. -/
@[simp] theorem strb_r1_r1 : (("R1" : String) != "R1") = false := by decide

/-- Helper evaluation lemma. -/
@[simp] theorem strb_r2_r2 : (("R2" : String) != "R2") = false := by decide

/-- Helper evaluation lemma. -/
@[simp] theorem streq_r1_r1 : (("R1" : String) == "R1") = true := by decide

/-- Helper evaluation lemma. -/
@[simp] theorem streq_r2_r1 : (("R2" : String) == "R1") = false := by decide

/-- Claim C7. Lease semantics of the reservation layer: a lease held by
a different robot and not yet expired makes the call return false with
no mutation; otherwise the call returns true and records the requester
with expiry now + duration, leaving the other table untouched. The
concrete schedule of the claim is included: R1 takes lane (0, 1) for one
second at time 0; the R2 request 0.1 seconds later is refused without
mutation and the R2 request 1.1 seconds after the start is granted. -/
theorem c7_reservation_lease :
    (∀ (tm : TrafficManager) (lane : ℕ × ℕ) (robot_id : String) (duration now : ℚ)
      (r : String) (exp : ℚ),
      lookupKV tm.lane_reservations lane = some (r, exp) → r ≠ robot_id → now < exp →
        reserve_lane tm lane robot_id duration now = (tm, false)) ∧
    (∀ (tm : TrafficManager) (lane : ℕ × ℕ) (robot_id : String) (duration now : ℚ),
      (¬ ∃ r exp, lookupKV tm.lane_reservations lane = some (r, exp) ∧ r ≠ robot_id ∧ now < exp) →
        (reserve_lane tm lane robot_id duration now).2 = true ∧
        lookupKV (reserve_lane tm lane robot_id duration now).1.lane_reservations lane =
          some (robot_id, now + duration) ∧
        (reserve_lane tm lane robot_id duration now).1.intersection_slots =
          tm.intersection_slots) ∧
    (∀ (tm : TrafficManager) (vertex_idx : ℕ) (robot_id : String) (duration now : ℚ)
      (r : String) (exp : ℚ),
      lookupKV tm.intersection_slots vertex_idx = some (r, exp) → r ≠ robot_id → now < exp →
        reserve_intersection tm vertex_idx robot_id duration now = (tm, false)) ∧
    (∀ (tm : TrafficManager) (vertex_idx : ℕ) (robot_id : String) (duration now : ℚ),
      (¬ ∃ r exp, lookupKV tm.intersection_slots vertex_idx = some (r, exp) ∧ r ≠ robot_id ∧
          now < exp) →
        (reserve_intersection tm vertex_idx robot_id duration now).2 = true ∧
        lookupKV (reserve_intersection tm vertex_idx robot_id duration now).1.intersection_slots
          vertex_idx = some (robot_id, now + duration) ∧
        (reserve_intersection tm vertex_idx robot_id duration now).1.lane_reservations =
          tm.lane_reservations) ∧
    (reserve_lane { intersection_slots := [], lane_reservations := [] } (0, 1) "R1" 1 0 =
      (tmC7, true) ∧
     reserve_lane tmC7 (0, 1) "R2" 1 (1/10) = (tmC7, false) ∧
     (reserve_lane tmC7 (0, 1) "R2" 1 (11/10)).2 = true) := by
  refine ⟨?_, ?_, ?_, ?_, ?_, ?_, ?_⟩
  · intro tm lane robot_id duration now r exp hl hr hnow
    simp [reserve_lane, hl, hr, hnow]
  · intro tm lane robot_id duration now hno
    cases hl : lookupKV tm.lane_reservations lane with
    | none => simp [reserve_lane, hl, lookupKV]
    | some p =>
      obtain ⟨r, exp⟩ := p
      have hcond : ¬ (r ≠ robot_id ∧ exp > now) := fun hc => hno ⟨r, exp, hl, hc.1, hc.2⟩
      simp only [reserve_lane, hl, if_neg hcond]
      simp [lookupKV]
  · intro tm vertex_idx robot_id duration now r exp hl hr hnow
    simp [reserve_intersection, hl, hr, hnow]
  · intro tm vertex_idx robot_id duration now hno
    cases hl : lookupKV tm.intersection_slots vertex_idx with
    | none => simp [reserve_intersection, hl, lookupKV]
    | some p =>
      obtain ⟨r, exp⟩ := p
      have hcond : ¬ (r ≠ robot_id ∧ exp > now) := fun hc => hno ⟨r, exp, hl, hc.1, hc.2⟩
      simp only [reserve_intersection, hl, if_neg hcond]
      simp [lookupKV]
  · norm_num [reserve_lane, tmC7, lookupKV]
  · norm_num [reserve_lane, tmC7, lookupKV]
  · norm_num [reserve_lane, tmC7, lookupKV]

/-- Claim C7, witness: the refusal branch applied to the concrete table
of the scenario, with a third robot asking mid-lease. -/
theorem c7_witness :
    reserve_lane tmC7 (0, 1) "R9" 5 (1/2) = (tmC7, false) :=
  c7_reservation_lease.1 tmC7 (0, 1) "R9" 5 (1/2) "R1" 1 (by norm_num [tmC7, lookupKV])
    (by decide) (by norm_num)

/-- Helper: one step of the robot loop never deletes an occupied-lanes
entry; the table either stays or gains one prepended binding. -/
theorem processRobot_occ_shape (get_vertex_coords : ℕ → ℚ × ℚ)
    (calculate_distance : ℕ → ℕ → ℚ) (delta_time now : ℚ)
    (acc : List Robot × OccMap) (r : Robot) :
    (processRobot get_vertex_coords calculate_distance delta_time now acc r).2 = acc.2 ∨
    ∃ e, (processRobot get_vertex_coords calculate_distance delta_time now acc r).2 =
      e :: acc.2 := by
  unfold processRobot
  obtain ⟨done, occ⟩ := acc
  dsimp only
  split
  · split
    · exact Or.inr ⟨_, rfl⟩
    · exact Or.inl rfl
  · exact Or.inl rfl

/-- Helper: prepending a binding preserves the presence of a key. -/
theorem lookupKV_cons_preserve {α β : Type} [DecidableEq α]
    (m : List (α × β)) (e : α × β) (k : α) (v : β) (h : lookupKV m k = some v) :
    ∃ w, lookupKV (e :: m) k = some w := by
  obtain ⟨a, b⟩ := e
  by_cases hk : a = k
  · exact ⟨b, by simp [lookupKV, hk]⟩
  · exact ⟨v, by simp [lookupKV, hk, h]⟩

/-- Claim C9. Within one update pass the occupied-lanes table only gains
entries: if a lane is bound before any prefix of the robot loop runs, it
is still bound afterwards, and is_lane_blocked therefore still reports
the lane blocked to every robot other than the current holder. A lane
vacated by a robot processed earlier in the tick thus stays blocked for
all robots processed later in the same tick. -/
theorem c9_single_snapshot_occupancy (get_vertex_coords : ℕ → ℚ × ℚ)
    (calculate_distance : ℕ → ℕ → ℚ) (delta_time now : ℚ)
    (pre : List Robot) (done : List Robot) (occ : OccMap) (lane : ℕ × ℕ) (rid : String)
    (h : lookupKV occ lane = some rid) :
    ∃ rid2,
      lookupKV (processRobots get_vertex_coords calculate_distance delta_time now pre
        (done, occ)).2 lane = some rid2 ∧
      ∀ q, q ≠ rid2 →
        is_lane_blocked (processRobots get_vertex_coords calculate_distance delta_time now pre
          (done, occ)).2 lane.1 lane.2 q = true := by
  induction pre generalizing done occ rid with
  | nil =>
    refine ⟨rid, h, ?_⟩
    intro q hq
    simp only [processRobots, List.foldl_nil, is_lane_blocked]
    rw [show (lane.1, lane.2) = lane from rfl, h]
    simp [bne_iff_ne, Ne.symm hq]
  | cons r rs ih =>
    have hshape := processRobot_occ_shape get_vertex_coords calculate_distance delta_time now
      (done, occ) r
    have hstep : processRobots get_vertex_coords calculate_distance delta_time now (r :: rs)
        (done, occ) = processRobots get_vertex_coords calculate_distance delta_time now rs
          (processRobot get_vertex_coords calculate_distance delta_time now (done, occ) r) := by
      simp [processRobots]
    rw [hstep]
    rcases hshape with hsame | ⟨e, hcons⟩
    · have h2 : lookupKV (processRobot get_vertex_coords calculate_distance delta_time now
          (done, occ) r).2 lane = some rid := by rw [hsame]; exact h
      have hres := ih (processRobot get_vertex_coords calculate_distance delta_time now
        (done, occ) r).1 (processRobot get_vertex_coords calculate_distance delta_time now
        (done, occ) r).2 rid h2
      exact hres
    · have h2 : ∃ w, lookupKV (processRobot get_vertex_coords calculate_distance delta_time now
          (done, occ) r).2 lane = some w := by
        rw [hcons]
        exact lookupKV_cons_preserve occ e lane rid h
      obtain ⟨w, hw⟩ := h2
      exact ih (processRobot get_vertex_coords calculate_distance delta_time now
        (done, occ) r).1 (processRobot get_vertex_coords calculate_distance delta_time now
        (done, occ) r).2 w hw

/-- Claim C9, witness: a lane bound to R1 before the loop is still
bound, and blocked for everyone but its holder, after processing one
robot. -/
theorem c9_witness :
    ∃ rid2,
      lookupKV (processRobots coordsC1 cdistC1 1 0 [r1C1] ([], [((0, 1), "R1")])).2 (0, 1) =
        some rid2 ∧
      ∀ q, q ≠ rid2 →
        is_lane_blocked (processRobots coordsC1 cdistC1 1 0 [r1C1] ([], [((0, 1), "R1")])).2
          0 1 q = true :=
  c9_single_snapshot_occupancy coordsC1 cdistC1 1 0 [r1C1] [] [((0, 1), "R1")] (0, 1) "R1"
    (by decide)

/-- Helper: the motion-scenario robot written out. -/
theorem robotC4_eval : robotC4 =
    { id := "R", position_idx := 0, position := (0, 0), color := "", state := RobotState.Moving,
      path := [0, 1, 2], current_path_index := 0, destination_idx := some 2, task_id := some "t",
      last_update_time := 0, target_position := (0, 0), progress := 0, path_blocked := false,
      battery_level := 100, speed := 1, blocked_time := 0 } := by decide

/-- Helper: the arrival-scenario robot written out. -/
theorem rArrC10_eval : rArrC10 =
    { id := "RA", position_idx := 0, position := (0, 0), color := "", state := RobotState.Moving,
      path := [0, 1], current_path_index := 0, destination_idx := some 1, task_id := some "ta",
      last_update_time := 0, target_position := (0, 0), progress := 0, path_blocked := false,
      battery_level := 100, speed := 1, blocked_time := 0 } := by decide

/-- Claim C10, counterexample. On the tick on which the robot reaches
the final vertex of its path and becomes TaskComplete, the battery is
left unchanged: the update returns before the decrement line. The
scenario robot has speed 1 and crosses its single lane of length 1 in
one tick, so the claimed decrement would give max 0 (100 - 0.01). -/
theorem c10_counterexample_final_tick_no_drain :
    (rArrC10.updateR 1 coordsC10 cdistC10 blkFree 0).state = RobotState.TaskComplete ∧
    (rArrC10.updateR 1 coordsC10 cdistC10 blkFree 0).battery_level = 100 ∧
    rArrC10.battery_level = 100 ∧ rArrC10.speed = 1 ∧
    ¬ (100 : ℚ) = max 0 (100 - 1/100 * (1 * 1)) := by
  have hmax : max (0 : ℚ) (100 - 1/100 * (1 * 1)) = 9999/100 := by
    rw [max_eq_right (by norm_num)]
    norm_num
  rw [rArrC10_eval]
  refine ⟨?_, ?_, rfl, rfl, by rw [hmax]; norm_num⟩
  · norm_num [Robot.updateR, Robot.update, Robot.get_next_vertex, Robot.resume_movement,
      Robot.set_waiting, coordsC10, cdistC10, blkFree]
  · norm_num [Robot.updateR, Robot.update, Robot.get_next_vertex, Robot.resume_movement,
      Robot.set_waiting, coordsC10, cdistC10, blkFree]

/-- Claim C10, amended. On a tick in which the robot is Moving, or is
Waiting and resumes, and its next lane is not blocked, the battery
decreases by exactly 0.01 * (speed * deltaTime) floored at 0, except on
the tick on which the robot reaches the final vertex and becomes
TaskComplete, where the battery is left unchanged. -/
theorem c10_battery_accounting (r : Robot) (dt now : ℚ)
    (coords : ℕ → ℚ × ℚ) (cdist : ℕ → ℕ → ℚ) (blk : ℕ → ℕ → String → Bool)
    (hst : r.state = RobotState.Moving ∨ r.state = RobotState.Waiting)
    (hidx : r.current_path_index < r.path.length - 1)
    (hblk : blk (r.path.getD r.current_path_index 0) (r.path.getD (r.current_path_index + 1) 0)
      r.id = false) :
    ((r.updateR dt coords cdist blk now).state = RobotState.TaskComplete →
      (r.updateR dt coords cdist blk now).battery_level = r.battery_level) ∧
    ((r.updateR dt coords cdist blk now).state ≠ RobotState.TaskComplete →
      (r.updateR dt coords cdist blk now).battery_level =
        max 0 (r.battery_level - 1/100 * (r.speed * dt))) := by
  rcases hst with hm | hw
  · simp only [Robot.updateR, Robot.update, hm, rs_mw, eq_self_iff_true, or_false, not_true,
      if_false, ite_false, ite_true, hblk, hidx, if_true, Bool.false_eq_true, not_false_iff]
    split
    · split
      · split
        · exact ⟨fun _ => rfl, fun hne2 => absurd rfl hne2⟩
        · exact ⟨fun htc => absurd htc (by simp), fun _ => rfl⟩
      · exact ⟨fun htc => absurd htc (by simp), fun _ => rfl⟩
    · split
      · split
        · exact ⟨fun _ => rfl, fun hne2 => absurd rfl hne2⟩
        · exact ⟨fun htc => absurd htc (by simp), fun _ => rfl⟩
      · exact ⟨fun htc => absurd htc (by simp), fun _ => rfl⟩
  · have hne : ¬ (r.path = [] ∨ r.current_path_index ≥ r.path.length - 1) := by
      push_neg
      constructor
      · intro he
        rw [he] at hidx
        simp at hidx
      · omega
    simp only [Robot.updateR, Robot.update, hw, rs_wm, eq_self_iff_true, or_true, not_true,
      if_false, ite_false, ite_true, Robot.get_next_vertex, hne, Robot.resume_movement,
      if_true, hblk, Bool.false_eq_true, not_false_iff, hidx]
    split
    · split
      · split
        · exact ⟨fun _ => rfl, fun hne2 => absurd rfl hne2⟩
        · exact ⟨fun htc => absurd htc (by simp), fun _ => rfl⟩
      · exact ⟨fun htc => absurd htc (by simp), fun _ => rfl⟩
    · split
      · split
        · exact ⟨fun _ => rfl, fun hne2 => absurd rfl hne2⟩
        · exact ⟨fun htc => absurd htc (by simp), fun _ => rfl⟩
      · exact ⟨fun htc => absurd htc (by simp), fun _ => rfl⟩

/-- Claim C10, witness: one mid-path tick of the motion-scenario robot
drains exactly the claimed amount. -/
theorem c10_witness :
    (robotC4.updateR 1 coordsC4 cdistC4 blkFree 0).battery_level =
      max 0 (robotC4.battery_level - 1/100 * (robotC4.speed * 1)) := by
  have h := c10_battery_accounting robotC4 1 0 coordsC4 cdistC4 blkFree (Or.inl (by decide))
    (by decide) (by decide)
  refine h.2 ?_
  rw [robotC4_eval]
  norm_num [Robot.updateR, Robot.update, Robot.get_next_vertex, Robot.resume_movement,
    Robot.set_waiting, coordsC4, cdistC4, blkFree]

/-- Helper: the availability loop returns false exactly when some
consecutive lane, or the start vertex of some consecutive pair, carries
a live foreign lease. -/
theorem checkLanesFrom_false_iff (tm : TrafficManager) (robot_id : String) (current_time : ℚ) :
    ∀ l : List ℕ,
      checkLanesFrom tm robot_id current_time l = false ↔
        ∃ i, i + 1 < l.length ∧
          (laneBlockedNow tm (l.getD i 0, l.getD (i + 1) 0) robot_id current_time = true ∨
           vertexBlockedNow tm (l.getD i 0) robot_id current_time = true) := by
  intro l
  induction l with
  | nil => simp [checkLanesFrom]
  | cons a tail ih =>
    cases tail with
    | nil =>
      simp only [checkLanesFrom, List.length_singleton]
      constructor
      · intro h
        cases h
      · rintro ⟨i, hi, _⟩
        omega
    | cons b rest =>
      by_cases hl : laneBlockedNow tm (a, b) robot_id current_time = true
      · simp only [checkLanesFrom, hl, if_true]
        constructor
        · intro _
          exact ⟨0, by simp, Or.inl (by simpa using hl)⟩
        · intro _
          trivial
      · by_cases hv : vertexBlockedNow tm a robot_id current_time = true
        · simp only [checkLanesFrom, hl, hv, if_true, if_false]
          constructor
          · intro _
            exact ⟨0, by simp, Or.inr (by simpa using hv)⟩
          · intro _
            trivial
        · simp only [checkLanesFrom, hl, hv, Bool.false_eq_true, if_false, ite_false]
          rw [ih]
          constructor
          · rintro ⟨i, hi, h⟩
            refine ⟨i + 1, by simpa using Nat.succ_lt_succ hi, ?_⟩
            simpa [List.getD_cons_succ] using h
          · rintro ⟨i, hi, h⟩
            cases i with
            | zero =>
              simp only [List.getD_cons_zero, List.getD_cons_succ] at h
              rcases h with h | h
              · exact absurd h hl
              · exact absurd h hv
            | succ j =>
              refine ⟨j, ?_, ?_⟩
              · simpa using Nat.lt_of_succ_lt_succ hi
              · simpa [List.getD_cons_succ] using h

/-- Claim C8, amended. checkPathAvailability returns false iff the path
has at least two vertices and some consecutive lane, or some vertex of
the path other than the final one, carries a live lease held by another
robot; paths with fewer than two vertices always report available, and
the final vertex of a path is never checked. -/
theorem c8_check_path_availability (tm : TrafficManager) (path : List ℕ)
    (robot_id : String) (current_time : ℚ) :
    check_path_availability tm path robot_id current_time = false ↔
      ∃ i, i + 1 < path.length ∧
        (laneBlockedNow tm (path.getD i 0, path.getD (i + 1) 0) robot_id current_time = true ∨
         vertexBlockedNow tm (path.getD i 0) robot_id current_time = true) := by
  unfold check_path_availability
  split
  · next hlen =>
    constructor
    · intro h
      cases h
    · rintro ⟨i, hi, _⟩
      exact absurd hi (by omega)
  · exact checkLanesFrom_false_iff tm robot_id current_time path

/-- Claim C8, counterexample. The final vertex of the path is never
checked: vertex 1 carries a live lease of robot RX, the path 0, 1 of
robot RY ends at vertex 1, no lane is reserved, and yet the path is
reported available. -/
theorem c8_counterexample_final_vertex_unchecked :
    check_path_availability tmC8 [0, 1] "RY" 0 = true ∧
    vertexBlockedNow tmC8 1 "RY" 0 = true ∧ (1 : ℕ) ∈ [0, 1] ∧
    laneBlockedNow tmC8 (0, 1) "RY" 0 = false := by decide

/-- Claim C8, witness: a live foreign lease on a checked vertex makes
the same table report the path 1, 2 unavailable. -/
theorem c8_witness :
    check_path_availability tmC8 [1, 2] "RY" 0 = false :=
  (c8_check_path_availability tmC8 [1, 2] "RY" 0).mpr
    ⟨0, by norm_num, Or.inr (by decide)⟩

/-- Helper: the first shared-lane robot written out. -/
theorem r1C1_eval : r1C1 =
    { id := "R1", position_idx := 0, position := (0, 0), color := "", state := RobotState.Moving,
      path := [0, 1], current_path_index := 0, destination_idx := some 1, task_id := some "t1",
      last_update_time := 0, target_position := (0, 0), progress := 0, path_blocked := false,
      battery_level := 100, speed := 1, blocked_time := 0 } := by decide

/-- Helper: the second shared-lane robot written out. -/
theorem r2C1_eval : r2C1 =
    { id := "R2", position_idx := 0, position := (0, 0), color := "", state := RobotState.Moving,
      path := [0, 1], current_path_index := 0, destination_idx := some 1, task_id := some "t2",
      last_update_time := 0, target_position := (0, 0), progress := 0, path_blocked := false,
      battery_level := 100, speed := 1, blocked_time := 0 } := by decide

/-- Helper: the shared-lane fleet after one tick: R1 yields (Waiting),
R2 holds the lane and has moved halfway. -/
theorem traceC1_1 : traceC1 1 =
    { robots := [
        { id := "R1", position_idx := 0, position := (0, 0), color := "",
          state := RobotState.Waiting, path := [0, 1], current_path_index := 0,
          destination_idx := some 1, task_id := some "t1", last_update_time := 0,
          target_position := (0, 0), progress := 0, path_blocked := false,
          battery_level := 100, speed := 1, blocked_time := 0 },
        { id := "R2", position_idx := 0, position := (1, 0), color := "",
          state := RobotState.Moving, path := [0, 1], current_path_index := 0,
          destination_idx := some 1, task_id := some "t2", last_update_time := 0,
          target_position := (0, 0), progress := 1/2, path_blocked := false,
          battery_level := 9999/100, speed := 1, blocked_time := 0 }],
      occupied_lanes := [((0, 1), "R2"), ((0, 1), "R2"), ((0, 1), "R1")] } := by
  show update_robots coordsC1 cdistC1 1 0 fleetC1 = _
  rw [show fleetC1 = { robots := [r1C1, r2C1], occupied_lanes := [] } from rfl, r1C1_eval,
    r2C1_eval]
  norm_num [update_robots, processRobots, processRobot, snapshotLanes, Robot.update,
    Robot.updateR, Robot.get_current_lane, Robot.get_next_vertex, Robot.resume_movement,
    Robot.set_waiting, is_lane_blocked, lookupKV, coordsC1, cdistC1, List.cons_ne_nil]

/-- Helper: after two ticks R2 has completed its task; R1 still waits
because the snapshot of tick 2 still holds the lane for R2. -/
theorem traceC1_2 : traceC1 2 =
    { robots := [
        { id := "R1", position_idx := 0, position := (0, 0), color := "",
          state := RobotState.Waiting, path := [0, 1], current_path_index := 0,
          destination_idx := some 1, task_id := some "t1", last_update_time := 0,
          target_position := (0, 0), progress := 0, path_blocked := false,
          battery_level := 100, speed := 1, blocked_time := 0 },
        { id := "R2", position_idx := 1, position := (2, 0), color := "",
          state := RobotState.TaskComplete, path := [0, 1], current_path_index := 1,
          destination_idx := some 1, task_id := some "t2", last_update_time := 0,
          target_position := (0, 0), progress := 0, path_blocked := false,
          battery_level := 9999/100, speed := 1, blocked_time := 0 }],
      occupied_lanes := [((0, 1), "R2")] } := by
  show update_robots coordsC1 cdistC1 1 0 (traceC1 1) = _
  rw [traceC1_1]
  norm_num [update_robots, processRobots, processRobot, snapshotLanes, Robot.update,
    Robot.updateR, Robot.get_current_lane, Robot.get_next_vertex, Robot.resume_movement,
    Robot.set_waiting, is_lane_blocked, lookupKV, coordsC1, cdistC1, List.cons_ne_nil]

/-- Helper: in tick 3 the lane is free again in the snapshot, so R1
resumes and moves halfway. -/
theorem traceC1_3 : traceC1 3 =
    { robots := [
        { id := "R1", position_idx := 0, position := (1, 0), color := "",
          state := RobotState.Moving, path := [0, 1], current_path_index := 0,
          destination_idx := some 1, task_id := some "t1", last_update_time := 0,
          target_position := (0, 0), progress := 1/2, path_blocked := false,
          battery_level := 9999/100, speed := 1, blocked_time := 0 },
        { id := "R2", position_idx := 1, position := (2, 0), color := "",
          state := RobotState.TaskComplete, path := [0, 1], current_path_index := 1,
          destination_idx := some 1, task_id := some "t2", last_update_time := 0,
          target_position := (0, 0), progress := 0, path_blocked := false,
          battery_level := 9999/100, speed := 1, blocked_time := 0 }],
      occupied_lanes := [((0, 1), "R1")] } := by
  show update_robots coordsC1 cdistC1 1 0 (traceC1 2) = _
  rw [traceC1_2]
  norm_num [update_robots, processRobots, processRobot, snapshotLanes, Robot.update,
    Robot.updateR, Robot.get_current_lane, Robot.get_next_vertex, Robot.resume_movement,
    Robot.set_waiting, is_lane_blocked, lookupKV, coordsC1, cdistC1, List.cons_ne_nil]

/-- Helper: in tick 4 R1 completes its task. -/
theorem traceC1_4 : traceC1 4 =
    { robots := [
        { id := "R1", position_idx := 1, position := (2, 0), color := "",
          state := RobotState.TaskComplete, path := [0, 1], current_path_index := 1,
          destination_idx := some 1, task_id := some "t1", last_update_time := 0,
          target_position := (0, 0), progress := 0, path_blocked := false,
          battery_level := 9999/100, speed := 1, blocked_time := 0 },
        { id := "R2", position_idx := 1, position := (2, 0), color := "",
          state := RobotState.TaskComplete, path := [0, 1], current_path_index := 1,
          destination_idx := some 1, task_id := some "t2", last_update_time := 0,
          target_position := (0, 0), progress := 0, path_blocked := false,
          battery_level := 9999/100, speed := 1, blocked_time := 0 }],
      occupied_lanes := [((0, 1), "R1")] } := by
  show update_robots coordsC1 cdistC1 1 0 (traceC1 3) = _
  rw [traceC1_3]
  norm_num [update_robots, processRobots, processRobot, snapshotLanes, Robot.update,
    Robot.updateR, Robot.get_current_lane, Robot.get_next_vertex, Robot.resume_movement,
    Robot.set_waiting, is_lane_blocked, lookupKV, coordsC1, cdistC1, List.cons_ne_nil]

/-- Helper: from tick 5 on the fleet is quiescent with an empty
occupied-lanes table. -/
theorem traceC1_5 : traceC1 5 =
    { robots := [
        { id := "R1", position_idx := 1, position := (2, 0), color := "",
          state := RobotState.TaskComplete, path := [0, 1], current_path_index := 1,
          destination_idx := some 1, task_id := some "t1", last_update_time := 0,
          target_position := (0, 0), progress := 0, path_blocked := false,
          battery_level := 9999/100, speed := 1, blocked_time := 0 },
        { id := "R2", position_idx := 1, position := (2, 0), color := "",
          state := RobotState.TaskComplete, path := [0, 1], current_path_index := 1,
          destination_idx := some 1, task_id := some "t2", last_update_time := 0,
          target_position := (0, 0), progress := 0, path_blocked := false,
          battery_level := 9999/100, speed := 1, blocked_time := 0 }],
      occupied_lanes := [] } := by
  show update_robots coordsC1 cdistC1 1 0 (traceC1 4) = _
  rw [traceC1_4]
  norm_num [update_robots, processRobots, processRobot, snapshotLanes, Robot.update,
    Robot.updateR, Robot.get_current_lane, Robot.get_next_vertex, Robot.resume_movement,
    Robot.set_waiting, is_lane_blocked, lookupKV, coordsC1, cdistC1, List.cons_ne_nil]

/-- Helper: the quiescent fleet is a fixed point of the tick. -/
theorem traceC1_stable : ∀ k, traceC1 (5 + k) = traceC1 5 := by
  have hfix : update_robots coordsC1 cdistC1 1 0 (traceC1 5) = traceC1 5 := by
    rw [traceC1_5]
    norm_num [update_robots, processRobots, processRobot, snapshotLanes, Robot.update,
      Robot.updateR, Robot.get_current_lane, Robot.get_next_vertex, Robot.resume_movement,
      Robot.set_waiting, is_lane_blocked, lookupKV, coordsC1, cdistC1, List.cons_ne_nil]
  intro k
  induction k with
  | zero => rfl
  | succ m ih =>
    show update_robots coordsC1 cdistC1 1 0 (traceC1 (5 + m)) = traceC1 5
    rw [ih, hfix]

/-- Helper: a tick never changes the robot id. -/
theorem update_id (r : Robot) (dt : ℚ) (c : ℕ → ℚ × ℚ) (cd : ℕ → ℕ → ℚ)
    (blk : ℕ → ℕ → String → Bool) (now : ℚ) :
    (r.update dt c cd blk now).1.id = r.id := by
  simp only [Robot.update]
  split
  · rfl
  · split
    · rfl
    · rename_i r2 hr2
      have hid : r2.id = r.id := by
        by_cases hw : r.state = RobotState.Waiting
        · rw [if_pos hw] at hr2
          split at hr2
          · split at hr2
            · have h2 : r2 = r.resume_movement := (Option.some.inj hr2).symm
              rw [h2, Robot.resume_movement, if_pos hw]
            · exact Option.noConfusion hr2
          · exact Option.noConfusion hr2
        · rw [if_neg hw] at hr2
          rw [(Option.some.inj hr2).symm]
      have hsw : (Robot.set_waiting r2 now).id = r2.id := by
        simp only [Robot.set_waiting]
        split
        · rfl
        · rfl
      repeat' split
      all_goals first
        | exact hid
        | exact hsw.trans hid

/-- Helper: a Moving robot whose next lane is blocked only turns
Waiting. -/
theorem update_moving_blocked (r : Robot) (dt : ℚ) (c : ℕ → ℚ × ℚ) (cd : ℕ → ℕ → ℚ)
    (blk : ℕ → ℕ → String → Bool) (now : ℚ)
    (hm : r.state = RobotState.Moving)
    (hidx : r.current_path_index < r.path.length - 1)
    (hblk : blk (r.path.getD r.current_path_index 0)
      (r.path.getD (r.current_path_index + 1) 0) r.id = true) :
    r.update dt c cd blk now = (r.set_waiting now, true) := by
  simp only [Robot.update, hm, rs_mw, eq_self_iff_true, or_false, not_true, if_false,
    ite_false, ite_true, hblk, hidx, if_true]

/-- Helper: a Waiting robot whose pending lane is blocked is unchanged
by the tick. -/
theorem update_waiting_blocked (r : Robot) (dt : ℚ) (c : ℕ → ℚ × ℚ) (cd : ℕ → ℕ → ℚ)
    (blk : ℕ → ℕ → String → Bool) (now : ℚ)
    (hw : r.state = RobotState.Waiting)
    (hidx : r.current_path_index < r.path.length - 1)
    (hblk : blk (r.path.getD r.current_path_index 0)
      (r.path.getD (r.current_path_index + 1) 0) r.id = true) :
    r.update dt c cd blk now = (r, false) := by
  have hnv : r.get_next_vertex = some (r.path.getD (r.current_path_index + 1) 0) := by
    rw [Robot.get_next_vertex, if_neg]
    push_neg
    constructor
    · intro hp
      rw [hp] at hidx
      simp at hidx
    · omega
  simp only [Robot.update, hw, rs_wm, eq_self_iff_true, or_true, not_true, if_false,
    ite_true, hnv, hblk, not_true_eq_false, ite_false]

/-- Helper: one robot-loop step appends exactly the updated robot to the
done list. -/
theorem processRobot_fst (g : ℕ → ℚ × ℚ) (cd : ℕ → ℕ → ℚ) (dt now : ℚ)
    (done : List Robot) (occ : OccMap) (r : Robot) :
    (processRobot g cd dt now (done, occ) r).1 =
      done ++ [(r.update dt g cd (fun a b rid => is_lane_blocked occ a b rid) now).1] := rfl

/-- Helper: the robot loop appends processed robots after the done
prefix. -/
theorem processRobots_prefix (g : ℕ → ℚ × ℚ) (cd : ℕ → ℕ → ℚ) (dt now : ℚ) :
    ∀ (robots : List Robot) (done : List Robot) (occ : OccMap),
      ∃ tail, (processRobots g cd dt now robots (done, occ)).1 = done ++ tail := by
  intro robots
  induction robots with
  | nil => exact fun done occ => ⟨[], by simp [processRobots]⟩
  | cons r rs ih =>
    intro done occ
    have hstep : processRobots g cd dt now (r :: rs) (done, occ) =
        processRobots g cd dt now rs (processRobot g cd dt now (done, occ) r) := by
      simp [processRobots]
    obtain ⟨tail2, htail2⟩ := ih (processRobot g cd dt now (done, occ) r).1
      (processRobot g cd dt now (done, occ) r).2
    refine ⟨[(r.update dt g cd (fun a b rid => is_lane_blocked occ a b rid) now).1] ++ tail2, ?_⟩
    rw [hstep]
    rw [show (processRobots g cd dt now rs (processRobot g cd dt now (done, occ) r)).1 =
      (processRobot g cd dt now (done, occ) r).1 ++ tail2 from htail2]
    rw [processRobot_fst, List.append_assoc]

/-- Helper: the robot loop preserves the done count and adds one robot
per input robot. -/
theorem processRobots_len (g : ℕ → ℚ × ℚ) (cd : ℕ → ℕ → ℚ) (dt now : ℚ) :
    ∀ (robots : List Robot) (done : List Robot) (occ : OccMap),
      (processRobots g cd dt now robots (done, occ)).1.length =
        done.length + robots.length := by
  intro robots
  induction robots with
  | nil => intro done occ; simp [processRobots]
  | cons r rs ih =>
    intro done occ
    have hstep : processRobots g cd dt now (r :: rs) (done, occ) =
        processRobots g cd dt now rs (processRobot g cd dt now (done, occ) r) := by
      simp [processRobots]
    rw [hstep]
    rw [show (processRobots g cd dt now rs (processRobot g cd dt now (done, occ) r)).1.length =
      (processRobot g cd dt now (done, occ) r).1.length + rs.length from
      ih (processRobot g cd dt now (done, occ) r).1 (processRobot g cd dt now (done, occ) r).2]
    rw [processRobot_fst]
    simp only [List.length_append, List.length_cons, List.length_nil, List.length_singleton]
    omega


/-- Helper: a lane bound in the table stays bound through any run of the
robot loop. -/
theorem processRobots_occ_persist (g : ℕ → ℚ × ℚ) (cd : ℕ → ℕ → ℚ) (dt now : ℚ) :
    ∀ (robots : List Robot) (done : List Robot) (occ : OccMap) (lane : ℕ × ℕ) (v : String),
      lookupKV occ lane = some v →
      ∃ w, lookupKV (processRobots g cd dt now robots (done, occ)).2 lane = some w := by
  intro robots
  induction robots with
  | nil => exact fun done occ lane v h => ⟨v, by simpa [processRobots] using h⟩
  | cons r rs ih =>
    intro done occ lane v h
    have hstep : processRobots g cd dt now (r :: rs) (done, occ) =
        processRobots g cd dt now rs (processRobot g cd dt now (done, occ) r) := by
      simp [processRobots]
    rw [hstep]
    rcases processRobot_occ_shape g cd dt now (done, occ) r with hsame | hcons
    · have h2 : lookupKV (processRobot g cd dt now (done, occ) r).2 lane = some v := by
        rw [hsame]
        exact h
      exact ih (processRobot g cd dt now (done, occ) r).1
        (processRobot g cd dt now (done, occ) r).2 lane v h2
    · obtain ⟨e, hcons⟩ := hcons
      obtain ⟨w, hw⟩ := lookupKV_cons_preserve occ e lane v h
      have h2 : lookupKV (processRobot g cd dt now (done, occ) r).2 lane = some w := by
        rw [hcons]
        exact hw
      exact ih (processRobot g cd dt now (done, occ) r).1
        (processRobot g cd dt now (done, occ) r).2 lane w h2

/-- Helper: any value bound by one robot-loop step is either an old
binding or the id of the processed robot. -/
theorem processRobot_occ_values (g : ℕ → ℚ × ℚ) (cd : ℕ → ℕ → ℚ) (dt now : ℚ)
    (acc : List Robot × OccMap) (r : Robot) (lane : ℕ × ℕ) (v : String)
    (h : lookupKV (processRobot g cd dt now acc r).2 lane = some v) :
    lookupKV acc.2 lane = some v ∨ v = r.id := by
  obtain ⟨done, occ⟩ := acc
  unfold processRobot at h
  dsimp only at h
  revert h
  split
  · split
    · rename_i lane2 hl2
      intro h
      by_cases hk : lane2 = lane
      · right
        have hv : v = (r.update dt g cd (fun a b rid => is_lane_blocked occ a b rid) now).1.id := by
          rw [show lookupKV ((lane2, (r.update dt g cd
              (fun a b rid => is_lane_blocked occ a b rid) now).1.id) :: occ) lane =
              some (r.update dt g cd (fun a b rid => is_lane_blocked occ a b rid) now).1.id from by
            simp [lookupKV, hk]] at h
          exact (Option.some.inj h).symm
        rw [hv]
        exact update_id r dt g cd (fun a b rid => is_lane_blocked occ a b rid) now
      · left
        simpa [lookupKV, hk] using h
    · exact fun h => Or.inl h
  · exact fun h => Or.inl h

/-- Helper: any value bound after a run of the robot loop is either an
initial binding or the id of one of the processed robots. -/
theorem processRobots_occ_values (g : ℕ → ℚ × ℚ) (cd : ℕ → ℕ → ℚ) (dt now : ℚ) :
    ∀ (robots : List Robot) (done : List Robot) (occ : OccMap) (lane : ℕ × ℕ) (v : String),
      lookupKV (processRobots g cd dt now robots (done, occ)).2 lane = some v →
      lookupKV occ lane = some v ∨ ∃ r2 ∈ robots, v = r2.id := by
  intro robots
  induction robots with
  | nil =>
    intro done occ lane v h
    exact Or.inl (by simpa [processRobots] using h)
  | cons r rs ih =>
    intro done occ lane v h
    have hstep : processRobots g cd dt now (r :: rs) (done, occ) =
        processRobots g cd dt now rs (processRobot g cd dt now (done, occ) r) := by
      simp [processRobots]
    rw [hstep] at h
    rcases ih (processRobot g cd dt now (done, occ) r).1
        (processRobot g cd dt now (done, occ) r).2 lane v h with h1 | h1
    · rcases processRobot_occ_values g cd dt now (done, occ) r lane v h1 with h2 | h2
      · exact Or.inl h2
      · exact Or.inr ⟨r, List.mem_cons_self _ _, h2⟩
    · obtain ⟨r2, hr2, hv⟩ := h1
      exact Or.inr ⟨r2, List.mem_cons_of_mem _ hr2, hv⟩

/-- Helper: every binding of the occupied-lanes rebuild comes from a
robot of the list that reports that lane as its current lane. -/
theorem snapshot_fold_sound :
    ∀ (robots : List Robot) (acc : OccMap) (lane : ℕ × ℕ) (h : String),
      lookupKV (robots.foldl (fun occ r2 =>
        match r2.get_current_lane with
        | some lane2 => (lane2, r2.id) :: occ
        | none => occ) acc) lane = some h →
      (∃ rh ∈ robots, rh.id = h ∧ rh.get_current_lane = some lane) ∨
      lookupKV acc lane = some h := by
  intro robots
  induction robots with
  | nil => exact fun acc lane h hl => Or.inr (by simpa using hl)
  | cons r rs ih =>
    intro acc lane h hl
    rw [List.foldl_cons] at hl
    rcases ih _ lane h hl with h1 | h1
    · obtain ⟨rh, hmem, hid, hcl⟩ := h1
      exact Or.inl ⟨rh, List.mem_cons_of_mem _ hmem, hid, hcl⟩
    · rcases hcl : r.get_current_lane with _ | lane2
      · rw [hcl] at h1
        exact Or.inr h1
      · rw [hcl] at h1
        by_cases hk : lane2 = lane
        · left
          refine ⟨r, List.mem_cons_self _ _, ?_, by rw [hcl, hk]⟩
          have : some r.id = some h := by
            rw [← h1]
            simp [lookupKV, hk]
          exact Option.some.inj this
        · right
          rw [show lookupKV ((lane2, r.id) :: acc) lane = lookupKV acc lane from by
            simp [lookupKV, hk]] at h1
          exact h1

/-- Helper: a lane bound by the occupied-lanes rebuild is the current
lane of a robot in the list carrying the bound id. -/
theorem snapshotLanes_sound (robots : List Robot) (lane : ℕ × ℕ) (h : String)
    (hl : lookupKV (snapshotLanes robots) lane = some h) :
    ∃ rh ∈ robots, rh.id = h ∧ rh.get_current_lane = some lane := by
  rcases snapshot_fold_sound robots [] lane h hl with h1 | h1
  · exact h1
  · exact Option.noConfusion h1


/-- Claim C1. Mutual exclusion on lanes, in general: for every fleet
state, graph data and tick, consider any robot r of the fleet (at any
position pre.length of the robot list, ids pairwise distinct) that is
Moving or Waiting with pending lane (a, b), while the occupied-lanes
rebuild at the top of the tick binds (a, b) to the id of another robot.
Then (1) the tick's final occupied-lanes table maps every lane to at
most one robot id; (2) the binding comes from an actual robot of the
fleet whose current lane is (a, b) — the other robot of a pair sharing
the directed lane; (3) r exits the tick Waiting with progress, path
index and position unchanged, so it never advances along the occupied
lane; (4) the lane is still bound to an id other than r's when the tick
ends, and is_lane_blocked keeps reporting it blocked to r. Instantiated
at every tick of a run, this is the claim's every-tick invariant for
every pair of robots whose paths share a directed lane. -/
theorem c1_lane_mutual_exclusion
    (coords : ℕ → ℚ × ℚ) (cdist : ℕ → ℕ → ℚ) (dt now : ℚ)
    (fm : FleetManager) (pre post : List Robot) (r : Robot)
    (hsplit : fm.robots = pre ++ r :: post)
    (hids : ∀ r2 ∈ pre ++ post, r2.id ≠ r.id)
    (a b : ℕ) (holder : String)
    (hocc0 : lookupKV (snapshotLanes fm.robots) (a, b) = some holder)
    (hne : holder ≠ r.id)
    (hstate : r.state = RobotState.Moving ∨ r.state = RobotState.Waiting)
    (hca : r.path.getD r.current_path_index 0 = a)
    (hcb : r.path.getD (r.current_path_index + 1) 0 = b)
    (hidx : r.current_path_index < r.path.length - 1) :
    (∀ (lane : ℕ × ℕ) (ra rb : String),
      lookupKV (update_robots coords cdist dt now fm).occupied_lanes lane = some ra →
      lookupKV (update_robots coords cdist dt now fm).occupied_lanes lane = some rb →
      ra = rb) ∧
    (∃ rOther ∈ fm.robots, rOther.id = holder ∧ rOther.get_current_lane = some (a, b)) ∧
    (∃ rW, (update_robots coords cdist dt now fm).robots.get? pre.length = some rW ∧
      rW.id = r.id ∧
      rW.state = RobotState.Waiting ∧
      rW.progress = r.progress ∧
      rW.current_path_index = r.current_path_index ∧
      rW.position = r.position) ∧
    (∃ rid2, lookupKV (update_robots coords cdist dt now fm).occupied_lanes (a, b) = some rid2 ∧
      rid2 ≠ r.id ∧
      is_lane_blocked (update_robots coords cdist dt now fm).occupied_lanes a b r.id = true) := by
  obtain ⟨done1, occ1, hP⟩ :
      ∃ d o, processRobots coords cdist dt now pre ([], snapshotLanes fm.robots) = (d, o) :=
    ⟨_, _, rfl⟩
  have hur1 : (update_robots coords cdist dt now fm).robots =
      (processRobots coords cdist dt now fm.robots ([], snapshotLanes fm.robots)).1 := rfl
  have hur2 : (update_robots coords cdist dt now fm).occupied_lanes =
      (processRobots coords cdist dt now fm.robots ([], snapshotLanes fm.robots)).2 := rfl
  have hdecomp : processRobots coords cdist dt now fm.robots ([], snapshotLanes fm.robots) =
      processRobots coords cdist dt now post
        (processRobot coords cdist dt now (done1, occ1) r) := by
    rw [← hP]
    rw [show processRobots coords cdist dt now fm.robots ([], snapshotLanes fm.robots) =
      processRobots coords cdist dt now (pre ++ r :: post) ([], snapshotLanes fm.robots) from by
        rw [hsplit]]
    simp [processRobots, List.foldl_append]
  -- the lane is still bound, to an id other than r's, when r is processed
  have hocc1 : ∃ h1, lookupKV occ1 (a, b) = some h1 ∧ h1 ≠ r.id := by
    obtain ⟨w, hw⟩ := processRobots_occ_persist coords cdist dt now pre []
      (snapshotLanes fm.robots) (a, b) holder hocc0
    rw [hP] at hw
    refine ⟨w, hw, ?_⟩
    have hw2 : lookupKV (processRobots coords cdist dt now pre
        ([], snapshotLanes fm.robots)).2 (a, b) = some w := by rw [hP]; exact hw
    rcases processRobots_occ_values coords cdist dt now pre []
        (snapshotLanes fm.robots) (a, b) w hw2 with h1 | h1
    · rw [hocc0] at h1
      rw [← Option.some.inj h1]
      exact hne
    · obtain ⟨r2, hr2, hv⟩ := h1
      rw [hv]
      exact hids r2 (List.mem_append_left _ hr2)
  obtain ⟨h1, hh1, hh1ne⟩ := hocc1
  have hblk : is_lane_blocked occ1 a b r.id = true := by
    simp only [is_lane_blocked, hh1, bne_iff_ne, ne_eq, decide_eq_true_eq]
    exact hh1ne
  have hblk2 : (fun x y q => is_lane_blocked occ1 x y q)
      (r.path.getD r.current_path_index 0) (r.path.getD (r.current_path_index + 1) 0)
      r.id = true := by
    show is_lane_blocked occ1 (r.path.getD r.current_path_index 0)
      (r.path.getD (r.current_path_index + 1) 0) r.id = true
    rw [hca, hcb]
    exact hblk
  -- the blocked update: rW is the processed robot, the table is untouched
  have hmain : ∃ rW,
      processRobot coords cdist dt now (done1, occ1) r = (done1 ++ [rW], occ1) ∧
      rW.id = r.id ∧ rW.state = RobotState.Waiting ∧ rW.progress = r.progress ∧
      rW.current_path_index = r.current_path_index ∧ rW.position = r.position := by
    rcases hstate with hm | hw
    · refine ⟨{ r with state := RobotState.Waiting, blocked_time := now }, ?_, rfl, rfl, rfl,
        rfl, rfl⟩
      have hueq : r.update dt coords cdist (fun x y q => is_lane_blocked occ1 x y q) now =
          ({ r with state := RobotState.Waiting, blocked_time := now }, true) := by
        rw [update_moving_blocked r dt coords cdist _ now hm hidx hblk2]
        rw [Robot.set_waiting, if_pos (by rw [hm]; decide)]
      unfold processRobot
      dsimp only
      rw [hueq]
      simp [Robot.get_current_lane]
    · refine ⟨r, ?_, rfl, hw, rfl, rfl, rfl⟩
      have hueq : r.update dt coords cdist (fun x y q => is_lane_blocked occ1 x y q) now =
          (r, false) := update_waiting_blocked r dt coords cdist _ now hw hidx hblk2
      unfold processRobot
      dsimp only
      rw [hueq]
      simp
  obtain ⟨rW, hpr, hid, hst, hprog, hcpi, hpos⟩ := hmain
  have hlen1 : done1.length = pre.length := by
    have := processRobots_len coords cdist dt now pre [] (snapshotLanes fm.robots)
    rw [hP] at this
    simpa using this
  refine ⟨?_, ?_, ?_, ?_⟩
  · intro lane ra rb hra hrb
    rw [hra] at hrb
    exact Option.some.inj hrb
  · exact snapshotLanes_sound fm.robots (a, b) holder hocc0
  · -- the processed robot sits at position pre.length of the output list
    obtain ⟨tail2, htail2⟩ := processRobots_prefix coords cdist dt now post
      (done1 ++ [rW]) occ1
    refine ⟨rW, ?_, hid, hst, hprog, hcpi, hpos⟩
    rw [hur1, hdecomp, hpr]
    rw [htail2, List.append_assoc, ← hlen1]
    rw [List.get?_append_right (le_refl done1.length)]
    simp
  · -- the lane stays bound to a foreign id through the rest of the pass
    obtain ⟨rid2, hrid2⟩ := processRobots_occ_persist coords cdist dt now post
      (done1 ++ [rW]) occ1 (a, b) h1 hh1
    have hrid2ne : rid2 ≠ r.id := by
      rcases processRobots_occ_values coords cdist dt now post (done1 ++ [rW]) occ1
          (a, b) rid2 hrid2 with h2 | h2
      · rw [hh1] at h2
        rw [← Option.some.inj h2]
        exact hh1ne
      · obtain ⟨r2, hr2, hv⟩ := h2
        rw [hv]
        exact hids r2 (List.mem_append_right _ hr2)
    have hfin : lookupKV (update_robots coords cdist dt now fm).occupied_lanes (a, b) =
        some rid2 := by
      rw [hur2, hdecomp, hpr]
      exact hrid2
    refine ⟨rid2, hfin, hrid2ne, ?_⟩
    simp only [is_lane_blocked, hfin, bne_iff_ne, ne_eq, decide_eq_true_eq]
    exact hrid2ne

/-- Claim C1, witness: the two-robot shared-lane scenario, with R2
holding lane (0, 1) at the rebuild and R1 the blocked non-holder at
position 0 of the list. -/
theorem c1_witness :
    (∀ (lane : ℕ × ℕ) (ra rb : String),
      lookupKV (update_robots coordsC1 cdistC1 1 0 fleetC1).occupied_lanes lane = some ra →
      lookupKV (update_robots coordsC1 cdistC1 1 0 fleetC1).occupied_lanes lane = some rb →
      ra = rb) ∧
    (∃ rOther ∈ fleetC1.robots, rOther.id = "R2" ∧ rOther.get_current_lane = some (0, 1)) ∧
    (∃ rW, (update_robots coordsC1 cdistC1 1 0 fleetC1).robots.get? 0 = some rW ∧
      rW.id = r1C1.id ∧
      rW.state = RobotState.Waiting ∧
      rW.progress = r1C1.progress ∧
      rW.current_path_index = r1C1.current_path_index ∧
      rW.position = r1C1.position) ∧
    (∃ rid2,
      lookupKV (update_robots coordsC1 cdistC1 1 0 fleetC1).occupied_lanes (0, 1) = some rid2 ∧
      rid2 ≠ r1C1.id ∧
      is_lane_blocked (update_robots coordsC1 cdistC1 1 0 fleetC1).occupied_lanes 0 1
        r1C1.id = true) :=
  c1_lane_mutual_exclusion coordsC1 cdistC1 1 0 fleetC1 [] [r2C1] r1C1 (by decide) (by decide) 0 1 "R2"
    (by decide) (by decide) (Or.inl (by decide)) (by decide) (by decide) (by decide)

/-- Helper: closed form of one unblocked Moving tick. -/
theorem update_moving_free (r : Robot) (dt now : ℚ) (coords : ℕ → ℚ × ℚ)
    (cdist : ℕ → ℕ → ℚ) (blk : ℕ → ℕ → String → Bool)
    (hm : r.state = RobotState.Moving)
    (hidx : r.current_path_index < r.path.length - 1)
    (hblk : blk (r.path.getD r.current_path_index 0) (r.path.getD (r.current_path_index + 1) 0)
      r.id = false)
    (htot : 0 < cdist (r.path.getD r.current_path_index 0)
      (r.path.getD (r.current_path_index + 1) 0)) :
    r.updateR dt coords cdist blk now =
      (if min 1 (max 0 (r.progress + r.speed * dt /
          cdist (r.path.getD r.current_path_index 0)
            (r.path.getD (r.current_path_index + 1) 0))) ≥ 1 then
        (if r.current_path_index + 1 ≥ r.path.length - 1 then
          { r with
              position := coords (r.path.getD (r.current_path_index + 1) 0)
              position_idx := r.path.getD (r.current_path_index + 1) 0
              current_path_index := r.current_path_index + 1
              progress := 0
              state := RobotState.TaskComplete }
        else
          { r with
              position := coords (r.path.getD (r.current_path_index + 1) 0)
              position_idx := r.path.getD (r.current_path_index + 1) 0
              current_path_index := r.current_path_index + 1
              progress := 0
              battery_level := max 0 (r.battery_level - 1/100 * (r.speed * dt)) })
      else
        { r with
            position :=
              ((coords (r.path.getD r.current_path_index 0)).1 +
                ((coords (r.path.getD (r.current_path_index + 1) 0)).1 -
                  (coords (r.path.getD r.current_path_index 0)).1) *
                  min 1 (max 0 (r.progress + r.speed * dt /
                    cdist (r.path.getD r.current_path_index 0)
                      (r.path.getD (r.current_path_index + 1) 0))),
               (coords (r.path.getD r.current_path_index 0)).2 +
                ((coords (r.path.getD (r.current_path_index + 1) 0)).2 -
                  (coords (r.path.getD r.current_path_index 0)).2) *
                  min 1 (max 0 (r.progress + r.speed * dt /
                    cdist (r.path.getD r.current_path_index 0)
                      (r.path.getD (r.current_path_index + 1) 0))))
            progress := min 1 (max 0 (r.progress + r.speed * dt /
              cdist (r.path.getD r.current_path_index 0)
                (r.path.getD (r.current_path_index + 1) 0)))
            battery_level := max 0 (r.battery_level - 1/100 * (r.speed * dt)) }) := by
  simp only [Robot.updateR, Robot.update, hm, rs_mw, eq_self_iff_true, or_false, not_true,
    if_false, ite_false, ite_true, hblk, hidx, if_true, Bool.false_eq_true, not_false_iff,
    if_pos htot]
  split
  · split
    · rfl
    · rfl
  · rfl

/-- Helper: one unblocked tick keeps the motion invariant on the first
segment. -/
theorem phase1_step (s d : ℚ) (r : Robot) (hs : 0 ≤ s) (hd : 0 ≤ d) (hsd : s + d ≤ 2)
    (h : phase1At s r) : phase1At (s + d) (updC4 d r) := by
  obtain ⟨hpath, hspeed, hcase⟩ := h
  by_cases hs2 : s < 2
  · rw [if_pos hs2] at hcase
    obtain ⟨hstate, hidx0, hprog, hpos, hpidx⟩ := hcase
    have hcv : r.path.getD r.current_path_index 0 = 0 := by rw [hpath, hidx0]; rfl
    have hnv : r.path.getD (r.current_path_index + 1) 0 = 1 := by rw [hpath, hidx0]; rfl
    have hlen : r.path.length = 3 := by rw [hpath]; rfl
    have heq := update_moving_free r d 0 coordsC4 cdistC4 blkFree hstate
      (by rw [hidx0, hlen]; norm_num) (by rfl) (by rw [hcv, hnv]; norm_num [cdistC4])
    rw [show updC4 d r = r.updateR d coordsC4 cdistC4 blkFree 0 from rfl, heq]
    rw [hcv, hnv]
    have hmax : max (0:ℚ) (r.progress + r.speed * d / cdistC4 0 1) = s / 2 + d / 2 := by
      rw [hprog, hspeed, show cdistC4 0 1 = 2 from rfl]
      rw [max_eq_right (by linarith)]
      ring
    by_cases harr : s + d < 2
    · have hmin : min (1:ℚ) (max 0 (r.progress + r.speed * d / cdistC4 0 1)) = (s + d) / 2 := by
        rw [hmax, min_eq_right (by linarith)]
        ring
      rw [if_neg (by rw [ge_iff_le, hmin]; intro hg; linarith)]
      refine ⟨by simp [hpath], by simp [hspeed], ?_⟩
      rw [if_pos harr]
      refine ⟨by simp [hstate], by simp [hidx0], by simp [hmin], ?_, by simp [hpidx]⟩
      simp only [Robot.position, hmin]
      show ((coordsC4 0).1 + ((coordsC4 1).1 - (coordsC4 0).1) * ((s + d) / 2),
        (coordsC4 0).2 + ((coordsC4 1).2 - (coordsC4 0).2) * ((s + d) / 2)) = (s + d, 0)
      norm_num [coordsC4]
      ring
    · have hsd2 : s + d = 2 := le_antisymm hsd (by linarith)
      have hmin : min (1:ℚ) (max 0 (r.progress + r.speed * d / cdistC4 0 1)) = 1 := by
        rw [hmax, min_eq_left (by linarith)]
      rw [if_pos (by rw [ge_iff_le, hmin])]
      rw [if_neg (by rw [hidx0, hlen]; norm_num)]
      refine ⟨by simp [hpath], by simp [hspeed], ?_⟩
      rw [if_neg (show ¬ (s + d < 2) from by rw [hsd2]; norm_num)]
      exact ⟨by simp [hstate], by simp [hidx0], by simp, by simp [coordsC4], by simp⟩
  · have hse : s = 2 := le_antisymm (by linarith) (by linarith)
    have hd0 : d = 0 := by linarith
    rw [if_neg hs2] at hcase
    obtain ⟨hstate, hidx1, hprog, hpos, hpidx⟩ := hcase
    have hcv : r.path.getD r.current_path_index 0 = 1 := by rw [hpath, hidx1]; rfl
    have hnv : r.path.getD (r.current_path_index + 1) 0 = 2 := by rw [hpath, hidx1]; rfl
    have hlen : r.path.length = 3 := by rw [hpath]; rfl
    have heq := update_moving_free r d 0 coordsC4 cdistC4 blkFree hstate
      (by rw [hidx1, hlen]; norm_num) (by rfl) (by rw [hcv, hnv]; norm_num [cdistC4])
    rw [show updC4 d r = r.updateR d coordsC4 cdistC4 blkFree 0 from rfl, heq]
    rw [hcv, hnv]
    have hmin : min (1:ℚ) (max 0 (r.progress + r.speed * d / cdistC4 1 2)) = 0 := by
      rw [hprog, hspeed, hd0, show cdistC4 1 2 = 3 from rfl]
      norm_num
    rw [if_neg (by rw [ge_iff_le, hmin]; norm_num)]
    refine ⟨by simp [hpath], by simp [hspeed], ?_⟩
    rw [if_neg (show ¬ (s + d < 2) from by rw [hse, hd0]; norm_num)]
    refine ⟨by simp [hstate], by simp [hidx1], ?_, ?_, by simp [hpidx]⟩
    · exact hmin
    · simp only [hmin]
      show ((coordsC4 1).1 + ((coordsC4 2).1 - (coordsC4 1).1) * 0,
        (coordsC4 1).2 + ((coordsC4 2).2 - (coordsC4 1).2) * 0) = (2, 0)
      norm_num [coordsC4]

/-- Helper: a robot that is neither Moving nor Waiting is unchanged by a
tick. -/
theorem update_inactive (r : Robot) (dt now : ℚ) (coords : ℕ → ℚ × ℚ)
    (cdist : ℕ → ℕ → ℚ) (blk : ℕ → ℕ → String → Bool)
    (h : ¬ (r.state = RobotState.Moving ∨ r.state = RobotState.Waiting)) :
    r.updateR dt coords cdist blk now = r := by
  simp only [Robot.updateR, Robot.update, if_pos h]

/-- Helper: one unblocked tick keeps the motion invariant on the second
segment. -/
theorem phase2_step (s d : ℚ) (r : Robot) (hs : 0 ≤ s) (hd : 0 ≤ d) (hsd : s + d ≤ 3)
    (h : phase2At s r) : phase2At (s + d) (updC4 d r) := by
  obtain ⟨hpath, hspeed, hcase⟩ := h
  by_cases hs3 : s < 3
  · rw [if_pos hs3] at hcase
    obtain ⟨hstate, hidx1, hprog, hpos, hpidx⟩ := hcase
    have hcv : r.path.getD r.current_path_index 0 = 1 := by rw [hpath, hidx1]; rfl
    have hnv : r.path.getD (r.current_path_index + 1) 0 = 2 := by rw [hpath, hidx1]; rfl
    have hlen : r.path.length = 3 := by rw [hpath]; rfl
    have heq := update_moving_free r d 0 coordsC4 cdistC4 blkFree hstate
      (by rw [hidx1, hlen]; norm_num) (by rfl) (by rw [hcv, hnv]; norm_num [cdistC4])
    rw [show updC4 d r = r.updateR d coordsC4 cdistC4 blkFree 0 from rfl, heq]
    rw [hcv, hnv]
    have hmax : max (0:ℚ) (r.progress + r.speed * d / cdistC4 1 2) = s / 3 + d / 3 := by
      rw [hprog, hspeed, show cdistC4 1 2 = 3 from rfl]
      rw [max_eq_right (by positivity)]
      ring
    by_cases harr : s + d < 3
    · have hmin : min (1:ℚ) (max 0 (r.progress + r.speed * d / cdistC4 1 2)) = (s + d) / 3 := by
        rw [hmax, min_eq_right (by linarith)]
        ring
      rw [if_neg (by rw [ge_iff_le, hmin]; intro hg; linarith)]
      refine ⟨by simp [hpath], by simp [hspeed], ?_⟩
      rw [if_pos harr]
      refine ⟨by simp [hstate], by simp [hidx1], by simp [hmin], ?_, by simp [hpidx]⟩
      simp only [hmin]
      show ((coordsC4 1).1 + ((coordsC4 2).1 - (coordsC4 1).1) * ((s + d) / 3),
        (coordsC4 1).2 + ((coordsC4 2).2 - (coordsC4 1).2) * ((s + d) / 3)) = (2 + (s + d), 0)
      norm_num [coordsC4]
      ring
    · have hsd3 : s + d = 3 := le_antisymm hsd (by linarith)
      have hmin : min (1:ℚ) (max 0 (r.progress + r.speed * d / cdistC4 1 2)) = 1 := by
        rw [hmax, min_eq_left (by linarith)]
      rw [if_pos (by rw [ge_iff_le, hmin])]
      rw [if_pos (by rw [hidx1, hlen])]
      refine ⟨by simp [hpath], by simp [hspeed], ?_⟩
      rw [if_neg (show ¬ (s + d < 3) from by rw [hsd3]; norm_num)]
      exact ⟨by simp, by simp [hidx1], by simp, by simp [coordsC4], by simp⟩
  · have hse : s = 3 := le_antisymm (by linarith) (by linarith)
    have hd0 : d = 0 := by linarith
    rw [if_neg hs3] at hcase
    obtain ⟨hstate, hidx2, hprog, hpos, hpidx⟩ := hcase
    rw [show updC4 d r = r.updateR d coordsC4 cdistC4 blkFree 0 from rfl,
      update_inactive r d 0 coordsC4 cdistC4 blkFree (by rw [hstate]; simp)]
    refine ⟨hpath, hspeed, ?_⟩
    rw [if_neg (show ¬ (s + d < 3) from by rw [hse, hd0]; norm_num)]
    exact ⟨hstate, hidx2, hprog, hpos, hpidx⟩

/-- Helper: ticks compose by list append. -/
theorem runC4_append (l1 l2 : List ℚ) (r : Robot) :
    runC4 (l1 ++ l2) r = runC4 l2 (runC4 l1 r) := by
  simp [runC4, List.foldl_append]

/-- Helper: folding nonnegative ticks whose total fits in the first
segment preserves the first-segment invariant. -/
theorem phase1_run : ∀ (ds : List ℚ) (s : ℚ) (r : Robot), (∀ x ∈ ds, 0 ≤ x) → 0 ≤ s →
    s + ds.sum ≤ 2 → phase1At s r → phase1At (s + ds.sum) (runC4 ds r) := by
  intro ds
  induction ds with
  | nil =>
    intro s r _ _ _ h
    simpa [runC4] using h
  | cons d tl ih =>
    intro s r hmem hs hsum h
    have hd : 0 ≤ d := hmem d (by simp)
    have htl : ∀ x ∈ tl, 0 ≤ x := fun x hx => hmem x (by simp [hx])
    have htlsum : 0 ≤ tl.sum := List.sum_nonneg htl
    have hstep : phase1At (s + d) (updC4 d r) := by
      refine phase1_step s d r hs hd ?_ h
      have : s + (d + tl.sum) ≤ 2 := by simpa [List.sum_cons] using hsum
      linarith
    have hrest := ih (s + d) (updC4 d r) htl (by linarith) (by
      have : s + (d + tl.sum) ≤ 2 := by simpa [List.sum_cons] using hsum
      linarith) hstep
    have hrw : runC4 (d :: tl) r = runC4 tl (updC4 d r) := rfl
    rw [hrw, List.sum_cons, show s + (d + tl.sum) = s + d + tl.sum by ring]
    exact hrest

/-- Helper: folding nonnegative ticks whose total fits in the second
segment preserves the second-segment invariant. -/
theorem phase2_run : ∀ (ds : List ℚ) (s : ℚ) (r : Robot), (∀ x ∈ ds, 0 ≤ x) → 0 ≤ s →
    s + ds.sum ≤ 3 → phase2At s r → phase2At (s + ds.sum) (runC4 ds r) := by
  intro ds
  induction ds with
  | nil =>
    intro s r _ _ _ h
    simpa [runC4] using h
  | cons d tl ih =>
    intro s r hmem hs hsum h
    have hd : 0 ≤ d := hmem d (by simp)
    have htl : ∀ x ∈ tl, 0 ≤ x := fun x hx => hmem x (by simp [hx])
    have htlsum : 0 ≤ tl.sum := List.sum_nonneg htl
    have hstep : phase2At (s + d) (updC4 d r) := by
      refine phase2_step s d r hs hd ?_ h
      have : s + (d + tl.sum) ≤ 3 := by simpa [List.sum_cons] using hsum
      linarith
    have hrest := ih (s + d) (updC4 d r) htl (by linarith) (by
      have : s + (d + tl.sum) ≤ 3 := by simpa [List.sum_cons] using hsum
      linarith) hstep
    have hrw : runC4 (d :: tl) r = runC4 tl (updC4 d r) := rfl
    rw [hrw, List.sum_cons, show s + (d + tl.sum) = s + d + tl.sum by ring]
    exact hrest

/-- Helper: standing on vertex 1 ends phase one and starts phase two. -/
theorem phase1_to_phase2 (r : Robot) (h : phase1At 2 r) : phase2At 0 r := by
  obtain ⟨hpath, hspeed, hcase⟩ := h
  rw [if_neg (by norm_num)] at hcase
  obtain ⟨hstate, hidx, hprog, hpos, hpidx⟩ := hcase
  refine ⟨hpath, hspeed, ?_⟩
  rw [if_pos (by norm_num)]
  exact ⟨hstate, hidx, by rw [hprog]; norm_num, by rw [hpos]; norm_num, hpidx⟩

/-- Helper: the freshly assigned motion robot satisfies the phase-one
invariant at time zero. -/
theorem phase1_zero : phase1At 0 robotC4 := by
  rw [robotC4_eval]
  refine ⟨rfl, rfl, ?_⟩
  rw [if_pos (by norm_num)]
  exact ⟨rfl, rfl, by norm_num, rfl, rfl⟩

/-- Claim C4. For the speed-1 robot on the unblocked two-segment path
with segment lengths 2 and 3: after any sequence of nonnegative ticks
accumulating exactly 2 seconds, the robot stands exactly on the first
intermediate vertex (2, 0) and is still Moving; after a further
sequence accumulating exactly 3 more seconds it is TaskComplete at the
final vertex (5, 0); and after every tick prefix during which the robot
is still Moving, its interpolated position lies on the closed segment
between the coordinates of the two endpoints of its current lane. -/
theorem c4_robot_motion (d1 d2 : List ℚ) (h1 : ∀ x ∈ d1, 0 ≤ x) (hs1 : d1.sum = 2)
    (h2 : ∀ x ∈ d2, 0 ≤ x) (hs2 : d2.sum = 3) :
    (runC4 d1 robotC4).position = (2, 0) ∧
    (runC4 d1 robotC4).state = RobotState.Moving ∧
    (runC4 d1 robotC4).position_idx = 1 ∧
    (runC4 d2 (runC4 d1 robotC4)).state = RobotState.TaskComplete ∧
    (runC4 d2 (runC4 d1 robotC4)).position = (5, 0) ∧
    (∀ l1 l2, d1 ++ d2 = l1 ++ l2 → (runC4 l1 robotC4).state = RobotState.Moving →
      onSeg (coordsC4 ((runC4 l1 robotC4).path.getD (runC4 l1 robotC4).current_path_index 0))
        (coordsC4 ((runC4 l1 robotC4).path.getD ((runC4 l1 robotC4).current_path_index + 1) 0))
        (runC4 l1 robotC4).position) := by
  have hp1 : phase1At 2 (runC4 d1 robotC4) := by
    have h := phase1_run d1 0 robotC4 h1 le_rfl (by rw [zero_add, hs1]) phase1_zero
    rwa [zero_add, hs1] at h
  have hp2 : phase2At 3 (runC4 d2 (runC4 d1 robotC4)) := by
    have h := phase2_run d2 0 (runC4 d1 robotC4) h2 le_rfl (by rw [zero_add, hs2])
      (phase1_to_phase2 _ hp1)
    rwa [zero_add, hs2] at h
  have hf1 := hp1
  obtain ⟨hpath1, hspeed1, hcase1⟩ := hf1
  rw [if_neg (by norm_num)] at hcase1
  obtain ⟨hstate1, hidx1, hprog1, hpos1, hpidx1⟩ := hcase1
  obtain ⟨hpath2, hspeed2, hcase2⟩ := hp2
  rw [if_neg (by norm_num)] at hcase2
  obtain ⟨hstate2, hidx2, hprog2, hpos2, hpidx2⟩ := hcase2
  refine ⟨hpos1, hstate1, hpidx1, hstate2, hpos2, ?_⟩
  intro l1 l2 heq hmov
  rcases List.append_eq_append_iff.mp heq with ⟨mid, hl1, hd2⟩ | ⟨mid, hd1, hl2⟩
  · -- l1 runs past the first segment into the second
    have hmidmem : ∀ x ∈ mid, 0 ≤ x := by
      intro x hx
      exact h2 x (by rw [hd2]; exact List.mem_append_left _ hx)
    have hl2mem : ∀ x ∈ l2, 0 ≤ x := by
      intro x hx
      exact h2 x (by rw [hd2]; exact List.mem_append_right _ hx)
    have hmidsum : mid.sum ≤ 3 := by
      have : mid.sum + l2.sum = 3 := by rw [← List.sum_append, ← hd2, hs2]
      have := List.sum_nonneg hl2mem
      linarith
    have hp : phase2At mid.sum (runC4 l1 robotC4) := by
      rw [hl1, runC4_append]
      have h := phase2_run mid 0 (runC4 d1 robotC4) hmidmem le_rfl
        (by rw [zero_add]; exact hmidsum) (phase1_to_phase2 _ hp1)
      rwa [zero_add] at h
    obtain ⟨hpath, hspeed, hcase⟩ := hp
    by_cases hlt : mid.sum < 3
    · rw [if_pos hlt] at hcase
      obtain ⟨hstate, hidx, hprog, hpos, hpidx⟩ := hcase
      have hmidnn : 0 ≤ mid.sum := List.sum_nonneg hmidmem
      rw [hpath, hidx, hpos]
      refine ⟨mid.sum / 3, by positivity, by linarith, ?_⟩
      show (2 + mid.sum, (0:ℚ)) =
        ((coordsC4 1).1 + ((coordsC4 2).1 - (coordsC4 1).1) * (mid.sum / 3),
         (coordsC4 1).2 + ((coordsC4 2).2 - (coordsC4 1).2) * (mid.sum / 3))
      norm_num [coordsC4]
      ring
    · rw [if_neg hlt] at hcase
      exact absurd (hmov.symm.trans hcase.1) (by simp)
  · -- l1 is a prefix of the first segment ticks
    have hl1mem : ∀ x ∈ l1, 0 ≤ x := by
      intro x hx
      exact h1 x (by rw [hd1]; exact List.mem_append_left _ hx)
    have hmidmem : ∀ x ∈ mid, 0 ≤ x := by
      intro x hx
      exact h1 x (by rw [hd1]; exact List.mem_append_right _ hx)
    have hl1sum : l1.sum ≤ 2 := by
      have : l1.sum + mid.sum = 2 := by rw [← List.sum_append, ← hd1, hs1]
      have := List.sum_nonneg hmidmem
      linarith
    have hp : phase1At l1.sum (runC4 l1 robotC4) := by
      have h := phase1_run l1 0 robotC4 hl1mem le_rfl (by rw [zero_add]; exact hl1sum)
        phase1_zero
      rwa [zero_add] at h
    obtain ⟨hpath, hspeed, hcase⟩ := hp
    have hl1nn : 0 ≤ l1.sum := List.sum_nonneg hl1mem
    by_cases hlt : l1.sum < 2
    · rw [if_pos hlt] at hcase
      obtain ⟨hstate, hidx, hprog, hpos, hpidx⟩ := hcase
      rw [hpath, hidx, hpos]
      refine ⟨l1.sum / 2, by positivity, by linarith, ?_⟩
      show (l1.sum, (0:ℚ)) =
        ((coordsC4 0).1 + ((coordsC4 1).1 - (coordsC4 0).1) * (l1.sum / 2),
         (coordsC4 0).2 + ((coordsC4 1).2 - (coordsC4 0).2) * (l1.sum / 2))
      norm_num [coordsC4]
      ring
    · rw [if_neg hlt] at hcase
      obtain ⟨hstate, hidx, hprog, hpos, hpidx⟩ := hcase
      rw [hpath, hidx, hpos]
      refine ⟨0, le_rfl, by norm_num, ?_⟩
      show ((2:ℚ), (0:ℚ)) =
        ((coordsC4 1).1 + ((coordsC4 2).1 - (coordsC4 1).1) * 0,
         (coordsC4 1).2 + ((coordsC4 2).2 - (coordsC4 1).2) * 0)
      norm_num [coordsC4]

/-- Claim C4, witness: two one-second ticks reach the intermediate
vertex and a further two-plus-one seconds complete the task. -/
theorem c4_witness :
    (runC4 [1, 1] robotC4).position = (2, 0) ∧
    (runC4 [2, 1] (runC4 [1, 1] robotC4)).state = RobotState.TaskComplete := by
  have h := c4_robot_motion [1, 1] [2, 1] (by norm_num) (by norm_num) (by norm_num)
    (by norm_num)
  exact ⟨h.1, h.2.2.2.1⟩

/-- Helper: membership in the adjacency list characterized by lanes. -/
theorem adj_mem_iff (g : NavGraph) (u x : ℕ) (l : ℚ) :
    (x, l) ∈ g.adjacency_list u ↔ (u, x) ∈ g.lanes ∧ l = g.calculate_distance u x := by
  unfold NavGraph.adjacency_list
  rw [List.mem_filterMap]
  constructor
  · rintro ⟨lane, hmem, hsome⟩
    by_cases hu : lane.1 = u
    · rw [if_pos hu] at hsome
      obtain ⟨h1, h2⟩ := Prod.mk.injEq _ _ _ _ ▸ Option.some.injEq _ _ ▸ hsome
      have hx : lane.2 = x := by
        have := Option.some.inj hsome
        exact (Prod.mk.injEq _ _ _ _ ▸ this).1
      have hl : l = g.calculate_distance lane.1 lane.2 := by
        have := Option.some.inj hsome
        exact ((Prod.mk.injEq _ _ _ _ ▸ this).2).symm
      constructor
      · rw [← hu, ← hx]
        exact hmem
      · rw [hl, hu, hx]
    · rw [if_neg hu] at hsome
      cases hsome
  · rintro ⟨hmem, hl⟩
    exact ⟨(u, x), hmem, by rw [if_pos rfl, hl]⟩

/-- Helper: costs of reachability witnesses are nonnegative. -/
theorem Reaches_nonneg (g : NavGraph) (s : ℕ) (hw : ∀ a b, 0 ≤ g.calculate_distance a b) :
    ∀ {v : ℕ} {c : ℚ}, Reaches g s v c → 0 ≤ c := by
  intro v c h
  induction h with
  | refl => exact le_rfl
  | step hr hadj ih =>
    have hlw := ((adj_mem_iff g _ _ _).mp hadj).2
    rw [hlw]
    exact add_nonneg ih (hw _ _)

/-- Helper: reached vertices are valid when the start and all lanes
are. -/
theorem Reaches_lt (g : NavGraph) (s : ℕ)
    (hl : ∀ p ∈ g.lanes, p.1 < g.numVertices ∧ p.2 < g.numVertices) (hs : s < g.numVertices) :
    ∀ {v : ℕ} {c : ℚ}, Reaches g s v c → v < g.numVertices := by
  intro v c h
  induction h with
  | refl => exact hs
  | step hr hadj ih =>
    have hm := ((adj_mem_iff g _ _ _).mp hadj).1
    exact (hl _ hm).2

/-- Helper: restricted reachability is reachability. -/
theorem ReachesVia_to_Reaches (g : NavGraph) (S : ℕ → Prop) (s : ℕ) :
    ∀ {v : ℕ} {c : ℚ}, ReachesVia g S s v c → Reaches g s v c := by
  intro v c h
  induction h with
  | refl => exact Reaches.refl
  | step hr _ hadj ih => exact Reaches.step ih hadj

/-- Helper: a reachability witness to a vertex outside S has a prefix
ending at a vertex outside S that travels only through S, at no greater
cost. -/
theorem reaches_decompose (g : NavGraph) (s : ℕ) (S : ℕ → Prop)
    (hw : ∀ a b, 0 ≤ g.calculate_distance a b) :
    ∀ {v : ℕ} {c : ℚ}, Reaches g s v c →
      ReachesVia g S s v c ∨
      ∃ v0 c0, ¬ S v0 ∧ ReachesVia g S s v0 c0 ∧ c0 ≤ c := by
  intro v c h
  induction h with
  | refl => exact Or.inl ReachesVia.refl
  | step hr hadj ih =>
    rename_i u cu w l
    have hl0 : 0 ≤ l := by
      rw [((adj_mem_iff g _ _ _).mp hadj).2]
      exact hw _ _
    rcases ih with hvia | ⟨v0, c0, hnS, hvia, hle⟩
    · by_cases hu : S u
      · exact Or.inl (ReachesVia.step hvia hu hadj)
      · exact Or.inr ⟨u, cu, hu, hvia, by linarith⟩
    · exact Or.inr ⟨v0, c0, hnS, hvia, by linarith⟩

/-- Helper: when every visited vertex has all its outgoing lanes
relaxed, every through-visited path bounds the tentative distance of
its endpoint. -/
theorem via_relaxed (g : NavGraph) (s : ℕ) (S : ℕ → Prop) (dist : ℕ → WithTop ℚ)
    (hstart : dist s = ((0 : ℚ) : WithTop ℚ))
    (hrel : ∀ u, S u → ∀ x l, (x, l) ∈ g.adjacency_list u → dist x ≤ dist u + (l : WithTop ℚ)) :
    ∀ {v : ℕ} {c : ℚ}, ReachesVia g S s v c → dist v ≤ (c : WithTop ℚ) := by
  intro v c h
  induction h with
  | refl => rw [hstart]
  | step hr hS hadj ih =>
    rename_i u cu w l
    calc dist w ≤ dist u + (l : WithTop ℚ) := hrel u hS _ _ hadj
    _ ≤ ((cu : WithTop ℚ)) + (l : WithTop ℚ) := add_le_add_right ih _
    _ = ((cu + l : ℚ) : WithTop ℚ) := by rw [WithTop.coe_add]

/-- Helper: the running minimum of the fold is a lower bound for the
seed and every scanned element. -/
theorem foldl_min_le (dist : ℕ → WithTop ℚ) : ∀ (xs : List ℕ) (a : ℕ),
    dist (xs.foldl (fun acc y => if dist y < dist acc then y else acc) a) ≤ dist a ∧
    ∀ y ∈ xs, dist (xs.foldl (fun acc y => if dist y < dist acc then y else acc) a) ≤ dist y := by
  intro xs
  induction xs with
  | nil => exact fun a => ⟨le_rfl, by simp⟩
  | cons z zs ih =>
    intro a
    have hrw : (z :: zs).foldl (fun acc y => if dist y < dist acc then y else acc) a =
        zs.foldl (fun acc y => if dist y < dist acc then y else acc)
          (if dist z < dist a then z else a) := by
      rw [List.foldl_cons]
    have hih := ih (if dist z < dist a then z else a)
    have hacc : dist (if dist z < dist a then z else a) ≤ dist a := by
      split
      · next hlt => exact le_of_lt hlt
      · exact le_rfl
    have hz : dist (if dist z < dist a then z else a) ≤ dist z := by
      split
      · exact le_rfl
      · next hge => exact le_of_not_lt hge
    refine ⟨by rw [hrw]; exact hih.1.trans hacc, ?_⟩
    intro y hy
    rcases List.mem_cons.mp hy with rfl | hmem
    · rw [hrw]
      exact hih.1.trans hz
    · rw [hrw]
      exact hih.2 y hmem

/-- Helper: the argmin is a member of the candidate list. -/
theorem argminList_mem (dist : ℕ → WithTop ℚ) : ∀ (xs : List ℕ) (x : ℕ),
    argminList dist x xs ∈ x :: xs := by
  intro xs
  induction xs with
  | nil => intro x; simp [argminList]
  | cons y ys ih =>
    intro x
    have h := ih (if dist y < dist x then y else x)
    unfold argminList at h ⊢
    rw [List.foldl_cons]
    rcases List.mem_cons.mp h with h1 | h1
    · rw [h1]
      split
      · simp
      · simp
    · simp [h1]

/-- Helper: the argmin minimizes the tentative distance on the list. -/
theorem argminList_le (dist : ℕ → WithTop ℚ) (xs : List ℕ) (x : ℕ) :
    ∀ y ∈ x :: xs, dist (argminList dist x xs) ≤ dist y := by
  intro y hy
  rcases List.mem_cons.mp hy with rfl | hmem
  · exact (foldl_min_le dist xs _).1
  · exact (foldl_min_le dist xs _).2 y hmem

/-- Helper: a predecessor chain starts at its vertex. -/
theorem chain_head (prev : ℕ → Option ℕ) {v : ℕ} {L : List ℕ} (h : Chain prev v L) :
    ∃ L2, L = v :: L2 := by
  cases h with
  | nil _ _ => exact ⟨[], rfl⟩
  | cons _ c L2 _ _ => exact ⟨L2, rfl⟩

/-- Helper: chains are nonempty. -/
theorem chain_ne_nil (prev : ℕ → Option ℕ) {v : ℕ} {L : List ℕ} (h : Chain prev v L) :
    L ≠ [] := by
  obtain ⟨L2, rfl⟩ := chain_head prev h
  simp

/-- Helper: updating the predecessor map outside a chain keeps it a
chain. -/
theorem chain_update_notin (prev : ℕ → Option ℕ) (x : ℕ) (o : Option ℕ) :
    ∀ {v : ℕ} {L : List ℕ}, Chain prev v L → x ∉ L →
      Chain (Function.update prev x o) v L := by
  intro v L h
  induction h with
  | nil w hw =>
    intro hx
    refine Chain.nil w ?_
    rw [Function.update_noteq (by simp at hx; exact Ne.symm (by simpa using hx)) , hw]
  | cons w c L2 hw hc ih =>
    intro hx
    have hwx : w ≠ x := fun he => hx (he ▸ List.mem_cons_self _ _)
    refine Chain.cons w c L2 ?_ (ih (fun hm => hx (List.mem_cons_of_mem _ hm)))
    rw [Function.update_noteq hwx, hw]

/-- Helper: tentative distances are monotone along a predecessor chain
whenever each link only adds a nonnegative amount. -/
theorem chain_mono (prev : ℕ → Option ℕ) (dist : ℕ → WithTop ℚ)
    (hmono : ∀ v c, prev v = some c → dist c ≤ dist v) :
    ∀ {v : ℕ} {L : List ℕ}, Chain prev v L → ∀ y ∈ L, dist y ≤ dist v := by
  intro v L h
  induction h with
  | nil w hw =>
    intro y hy
    rw [List.mem_singleton.mp hy]
  | cons w c L2 hw hc ih =>
    intro y hy
    rcases List.mem_cons.mp hy with rfl | hm
    · exact le_rfl
    · exact (ih y hm).trans (hmono w c hw)

/-- Helper: every element of the chain segment above x is at distance
at least that of x. -/
theorem chain_split_le (prev : ℕ → Option ℕ) (dist : ℕ → WithTop ℚ)
    (hmono : ∀ v c, prev v = some c → dist c ≤ dist v) (x : ℕ) :
    ∀ {v : ℕ} {L : List ℕ}, Chain prev v L → ∀ A B, L = A ++ x :: B →
      ∀ y ∈ A, dist x ≤ dist y := by
  intro v L h
  induction h with
  | nil w hw =>
    intro A B he y hy
    cases A with
    | nil => cases hy
    | cons a A2 =>
      exfalso
      have : ([w] : List ℕ).length = (a :: (A2 ++ x :: B)).length := by rw [he]; rfl
      simp at this
  | cons w c L2 hw hc ih =>
    intro A B he y hy
    cases A with
    | nil => cases hy
    | cons a A2 =>
      have he2 : w :: L2 = a :: (A2 ++ x :: B) := by simpa using he
      injection he2 with hwa hL2
      have hxc : dist x ≤ dist c := by
        obtain ⟨L3, he3⟩ := chain_head prev hc
        cases A2 with
        | nil =>
          have hL2x : L2 = x :: B := by simpa using hL2
          rw [hL2x] at he3
          injection he3 with h1 _
          rw [h1]
        | cons a2 A3 =>
          have hc2 : c = a2 := by
            rw [hL2] at he3
            have := he3
            simp only [List.cons_append] at this
            injection this with h1 _
            exact h1.symm
          exact ih (a2 :: A3) B hL2 c (by rw [hc2]; exact List.mem_cons_self _ _)
      rcases List.mem_cons.mp hy with rfl | hm
      · rw [← hwa]
        exact hxc.trans (hmono w c hw)
      · exact ih A2 B hL2 y hm

/-- Helper: the reconstruction loop returns exactly the predecessor
chain when given enough fuel. -/
theorem chain_build (prev : ℕ → Option ℕ) :
    ∀ {v : ℕ} {L : List ℕ}, Chain prev v L → ∀ fuel, L.length ≤ fuel + 1 →
      buildChainList prev fuel v = L := by
  intro v L h
  induction h with
  | nil w hw =>
    intro fuel _
    cases fuel with
    | zero => rfl
    | succ f => simp [buildChainList, hw]
  | cons w c L2 hw hc ih =>
    intro fuel hlen
    cases fuel with
    | zero =>
      exfalso
      have hne := chain_ne_nil prev hc
      have hz : L2.length = 0 := by
        simp only [List.length_cons] at hlen
        omega
      exact hne (List.length_eq_zero.mp hz)
    | succ f =>
      simp only [buildChainList, hw]
      rw [ih f (by simp only [List.length_cons] at hlen; omega)]

/-- Helper: path costs are nonnegative. -/
theorem pathCost_nonneg (g : NavGraph) (hw : ∀ a b, 0 ≤ g.calculate_distance a b) :
    ∀ q : List ℕ, 0 ≤ pathCost g q := by
  intro q
  induction q with
  | nil => simp [pathCost]
  | cons a tl ih =>
    cases tl with
    | nil => simp [pathCost]
    | cons b rest =>
      have : pathCost g (a :: b :: rest) = g.calculate_distance a b + pathCost g (b :: rest) :=
        rfl
      rw [this]
      have hbq : 0 ≤ pathCost g (b :: rest) := ih
      have := hw a b
      linarith

/-- Helper: appending one more lane to a chained list. -/
theorem chainedLanes_append_singleton (g : NavGraph) :
    ∀ (A : List ℕ) (c v : ℕ), chainedLanes g A = true → A.getLast? = some c →
      (c, v) ∈ g.lanes → chainedLanes g (A ++ [v]) = true := by
  intro A
  induction A with
  | nil => intro c v _ hlast _; cases hlast
  | cons a A2 ih =>
    intro c v hch hlast hlane
    cases A2 with
    | nil =>
      have hac : a = c := by simpa using hlast
      show chainedLanes g [a, v] = true
      simp [chainedLanes, hac, hlane]
    | cons b A3 =>
      have hch2 : chainedLanes g (b :: A3) = true ∧ (a, b) ∈ g.lanes := by
        have : chainedLanes g (a :: b :: A3) =
            (decide ((a, b) ∈ g.lanes) && chainedLanes g (b :: A3)) := rfl
        rw [this] at hch
        exact ⟨(Bool.and_eq_true _ _ ▸ hch).2, by
          have := (Bool.and_eq_true _ _ ▸ hch).1
          exact of_decide_eq_true this⟩
      have hlast2 : (b :: A3).getLast? = some c := by
        simpa [List.getLast?_cons_cons] using hlast
      have hres := ih c v hch2.1 hlast2 hlane
      show chainedLanes g (a :: (b :: A3 ++ [v])) = true
      have : chainedLanes g (a :: (b :: A3 ++ [v])) =
          (decide ((a, b) ∈ g.lanes) && chainedLanes g (b :: A3 ++ [v])) := rfl
      rw [this]
      simp only [Bool.and_eq_true]
      exact ⟨decide_eq_true hch2.2, hres⟩

/-- Helper: the cost of a path extended by one lane. -/
theorem pathCost_append_singleton (g : NavGraph) :
    ∀ (A : List ℕ) (c v : ℕ), A.getLast? = some c →
      pathCost g (A ++ [v]) = pathCost g A + g.calculate_distance c v := by
  intro A
  induction A with
  | nil => intro c v hlast; cases hlast
  | cons a A2 ih =>
    intro c v hlast
    cases A2 with
    | nil =>
      have hac : a = c := by simpa using hlast
      show pathCost g [a, v] = pathCost g [a] + g.calculate_distance c v
      simp [pathCost, hac]
    | cons b A3 =>
      have hlast2 : (b :: A3).getLast? = some c := by
        simpa [List.getLast?_cons_cons] using hlast
      have hres := ih c v hlast2
      show g.calculate_distance a b + pathCost g (b :: A3 ++ [v]) =
        g.calculate_distance a b + pathCost g (b :: A3) + g.calculate_distance c v
      rw [hres]
      ring

/-- Helper: walking a chained list accumulates reachability. -/
theorem chained_walk (g : NavGraph) (s : ℕ) :
    ∀ (q : List ℕ) (a : ℕ) (c : ℚ) (v : ℕ), chainedLanes g (a :: q) = true →
      (a :: q).getLast? = some v → Reaches g s a c →
      Reaches g s v (c + pathCost g (a :: q)) := by
  intro q
  induction q with
  | nil =>
    intro a c v _ hlast hr
    have hav : a = v := by simpa using hlast
    have : pathCost g [a] = 0 := rfl
    rw [this, add_zero, ← hav]
    exact hr
  | cons b q2 ih =>
    intro a c v hch hlast hr
    have hch2 : (a, b) ∈ g.lanes ∧ chainedLanes g (b :: q2) = true := by
      have : chainedLanes g (a :: b :: q2) =
          (decide ((a, b) ∈ g.lanes) && chainedLanes g (b :: q2)) := rfl
      rw [this] at hch
      exact ⟨of_decide_eq_true (Bool.and_eq_true _ _ ▸ hch).1,
        (Bool.and_eq_true _ _ ▸ hch).2⟩
    have hadj : (b, g.calculate_distance a b) ∈ g.adjacency_list a :=
      (adj_mem_iff g a b _).mpr ⟨hch2.1, rfl⟩
    have hrb : Reaches g s b (c + g.calculate_distance a b) := Reaches.step hr hadj
    have hlast2 : (b :: q2).getLast? = some v := by
      simpa [List.getLast?_cons_cons] using hlast
    have := ih b (c + g.calculate_distance a b) v hch2.2 hlast2 hrb
    have hcost : pathCost g (a :: b :: q2) = g.calculate_distance a b + pathCost g (b :: q2) :=
      rfl
    rw [hcost, show c + (g.calculate_distance a b + pathCost g (b :: q2)) =
      c + g.calculate_distance a b + pathCost g (b :: q2) by ring]
    exact this

/-- Helper: every graph path is a reachability witness at its cost. -/
theorem path_to_reaches (g : NavGraph) (s e : ℕ) (q : List ℕ) (h : IsGraphPath g s e q) :
    Reaches g s e (pathCost g q) := by
  obtain ⟨hhead, hlast, hch⟩ := h
  cases q with
  | nil => cases hhead
  | cons a q2 =>
    have has : a = s := by simpa using hhead
    subst has
    have := chained_walk g a q2 a 0 e hch hlast Reaches.refl
    simpa using this

/-- Helper: every reachability witness yields a graph path of the same
cost. -/
theorem reaches_to_path (g : NavGraph) (s : ℕ) :
    ∀ {v : ℕ} {c : ℚ}, Reaches g s v c → ∃ q, IsGraphPath g s v q ∧ pathCost g q = c := by
  intro v c h
  induction h with
  | refl =>
    exact ⟨[s], ⟨rfl, rfl, rfl⟩, rfl⟩
  | step hr hadj ih =>
    rename_i u cu w l
    obtain ⟨q, ⟨hhead, hlast, hch⟩, hcost⟩ := ih
    have hlane := (adj_mem_iff g u w l).mp hadj
    refine ⟨q ++ [w], ⟨?_, ?_, ?_⟩, ?_⟩
    · cases q with
      | nil => cases hhead
      | cons a q2 => simpa using hhead
    · simp
    · exact chainedLanes_append_singleton g q u w hch hlast hlane.1
    · rw [pathCost_append_singleton g q u w hlast, hcost, hlane.2]

/-- Helper: the reversed predecessor chain is a chained lane list whose
cost is exactly the tentative distance of its endpoint. -/
theorem chain_reverse_path (g : NavGraph) (s : ℕ) (dist : ℕ → WithTop ℚ)
    (prev : ℕ → Option ℕ)
    (hstart : dist s = ((0 : ℚ) : WithTop ℚ))
    (hlink : ∀ v c, prev v = some c → ∃ l : ℚ, (v, l) ∈ g.adjacency_list c ∧
      dist v = dist c + (l : WithTop ℚ) ∧ dist c ≠ ⊤)
    (hnone : ∀ v, prev v = none → dist v ≠ ⊤ → v = s) :
    ∀ {v : ℕ} {L : List ℕ}, Chain prev v L → ∀ q : ℚ, dist v = (q : WithTop ℚ) →
      chainedLanes g L.reverse = true ∧ pathCost g L.reverse = q := by
  intro v L h
  induction h with
  | nil w hw =>
    intro q hq
    have hws : w = s := hnone w hw (by rw [hq]; exact WithTop.coe_ne_top)
    have hq0 : q = 0 := by
      rw [hws, hstart] at hq
      exact (WithTop.coe_inj.mp hq).symm
    exact ⟨rfl, by rw [hq0]; rfl⟩
  | cons w c L2 hw hc ih =>
    intro q hq
    obtain ⟨l, hadj, hdw, hdc⟩ := hlink w c hw
    obtain ⟨qc, hqc⟩ := WithTop.ne_top_iff_exists.mp hdc
    have hql : q = qc + l := by
      rw [hq, ← hqc, ← WithTop.coe_add] at hdw
      exact WithTop.coe_inj.mp hdw
    obtain ⟨hch2, hcost2⟩ := ih qc hqc.symm
    obtain ⟨L3, hL3⟩ := chain_head prev hc
    have hlast : L2.reverse.getLast? = some c := by
      rw [List.getLast?_reverse, hL3]
      rfl
    have hlane := (adj_mem_iff g c w l).mp hadj
    constructor
    · rw [List.reverse_cons]
      exact chainedLanes_append_singleton g L2.reverse c w hch2 hlast hlane.1
    · rw [List.reverse_cons]
      rw [pathCost_append_singleton g L2.reverse c w hlast, hcost2, hql, hlane.2]

/-- Helper: inversion of the chain predicate. -/
theorem chain_inv (prev : ℕ → Option ℕ) {v : ℕ} {L : List ℕ} (h : Chain prev v L) :
    (prev v = none ∧ L = [v]) ∨
    ∃ c L2, prev v = some c ∧ L = v :: L2 ∧ Chain prev c L2 := by
  cases h with
  | nil w hw => exact Or.inl ⟨hw, rfl⟩
  | cons w c L2 hw hc => exact Or.inr ⟨c, L2, hw, rfl, hc⟩

/-- Helper: replacing the part of a chain below x by a new chain of x
under a predecessor map that agrees above x. -/
theorem chain_graft (prev prev2 : ℕ → Option ℕ) (x : ℕ) :
    ∀ (A : List ℕ) {v : ℕ} {B C : List ℕ}, Chain prev v (A ++ x :: B) →
      Chain prev2 x (x :: C) → (∀ y ∈ A, prev2 y = prev y) →
      Chain prev2 v (A ++ x :: C) := by
  intro A
  induction A with
  | nil =>
    intro v B C h hx _
    obtain ⟨L2, hL2⟩ := chain_head prev h
    have hvx : v = x := by
      have h2 : x :: B = v :: L2 := by simpa using hL2
      injection h2 with h1 _
      exact h1.symm
    rw [List.nil_append]
    rw [hvx]
    exact hx
  | cons a A2 ih =>
    intro v B C h hx hagree
    rcases chain_inv prev h with ⟨_, habs⟩ | ⟨c, L2, hw, hshape, hc⟩
    · exfalso
      have hlen : ((a :: A2) ++ x :: B).length = ([v] : List ℕ).length := by rw [← habs]
      simp at hlen
    · simp only [List.cons_append] at hshape
      injection hshape with h1 h2
      subst h1
      rw [List.cons_append]
      refine Chain.cons a c (A2 ++ x :: C) ?_ ?_
      · rw [hagree a (List.mem_cons_self _ _), hw]
      · have hcL : Chain prev c (A2 ++ x :: B) := by rw [h2]; exact hc
        exact ih hcL hx (fun y hy => hagree y (List.mem_cons_of_mem _ hy))

/-- Helper: the last element of an append with nonempty right part. -/
theorem getLast?_append_right {α : Type} : ∀ (l1 l2 : List α), l2 ≠ [] →
    (l1 ++ l2).getLast? = l2.getLast? := by
  intro l1
  induction l1 with
  | nil => intro l2 _; rfl
  | cons a t ih =>
    intro l2 h
    cases h2 : t ++ l2 with
    | nil =>
      exfalso
      rcases List.append_eq_nil.mp h2 with ⟨_, h3⟩
      exact h h3
    | cons b u =>
      rw [List.cons_append, h2, List.getLast?_cons_cons, ← h2, ih l2 h]

/-- Helper: one relaxation step preserves the relaxation invariant, does
not change the current vertex, only lowers distances, and leaves the
processed lane relaxed. -/
theorem relax_one (g : NavGraph) (s current : ℕ) (unvisited2 : List ℕ)
    (dist0 : ℕ → WithTop ℚ)
    (hw : ∀ a b, 0 ≤ g.calculate_distance a b)
    (hl : ∀ p ∈ g.lanes, p.1 < g.numVertices ∧ p.2 < g.numVertices)
    (hs : s < g.numVertices)
    (hcn : current < g.numVertices) (hcv : current ∉ unvisited2)
    (hct : dist0 current ≠ ⊤)
    (dp : (ℕ → WithTop ℚ) × (ℕ → Option ℕ))
    (hB : RelaxState g s current unvisited2 dist0 dp)
    (nl : ℕ × ℚ) (hnl : nl ∈ g.adjacency_list current) :
    RelaxState g s current unvisited2 dist0 (relaxStep current dp nl) ∧
    (relaxStep current dp nl).1 current = dp.1 current ∧
    (∀ v, (relaxStep current dp nl).1 v ≤ dp.1 v) ∧
    (relaxStep current dp nl).1 nl.1 ≤
      (relaxStep current dp nl).1 current + (nl.2 : WithTop ℚ) := by
  obtain ⟨x, lw⟩ := nl
  simp only [relaxStep]
  by_cases hup : dp.1 current + ((lw : ℚ) : WithTop ℚ) < dp.1 x
  case neg =>
    rw [if_neg hup]
    exact ⟨hB, rfl, fun v => le_rfl, le_of_not_lt hup⟩
  case pos =>
    rw [if_pos hup]
    have hlane := (adj_mem_iff g current x lw).mp hnl
    have hlw0 : 0 ≤ lw := by rw [hlane.2]; exact hw _ _
    have hxn : x < g.numVertices := (hl _ hlane.1).2
    have hdc_ne : dp.1 current ≠ ⊤ := by
      rw [hB.frozen current hcn hcv]
      exact hct
    obtain ⟨dc, hdc⟩ := WithTop.ne_top_iff_exists.mp hdc_ne
    have halt : dp.1 current + ((lw : ℚ) : WithTop ℚ) = ((dc + lw : ℚ) : WithTop ℚ) := by
      rw [← hdc, ← WithTop.coe_add]
    have hreach : Reaches g s current dc := hB.sound current dc hdc.symm
    have hrx : Reaches g s x (dc + lw) := Reaches.step hreach hnl
    have hxunvis : x ∈ unvisited2 := by
      by_contra hxv
      have hle := hB.visited_opt x hxn hxv (dc + lw) hrx
      rw [← halt] at hle
      exact absurd hup (not_lt.mpr hle)
    have hxc : x ≠ current := fun he => hcv (he ▸ hxunvis)
    have hxs : x ≠ s := by
      intro he
      have h0 : dp.1 x = ((0 : ℚ) : WithTop ℚ) := by rw [he]; exact hB.start_zero
      rw [h0, halt] at hup
      have hlt := WithTop.coe_lt_coe.mp hup
      have hdc0 : 0 ≤ dc := Reaches_nonneg g s hw hreach
      linarith
    have hmono_old : ∀ v c, dp.2 v = some c → dp.1 c ≤ dp.1 v := by
      intro v c hv
      obtain ⟨_, _, l2, hadj2, heq2, _⟩ := hB.prev_link v c hv
      have hl20 : 0 ≤ l2 := by
        rw [((adj_mem_iff g c v l2).mp hadj2).2]
        exact hw _ _
      rw [heq2]
      exact le_add_of_nonneg_right (by exact_mod_cast hl20)
    obtain ⟨Lc, hLc, hLclast, hLcnodup, hLcelts⟩ := hB.chain current hdc_ne
    have hxLc : x ∉ Lc := by
      intro hm
      have h1 : dp.1 x ≤ dp.1 current := chain_mono dp.2 dp.1 hmono_old hLc x hm
      have h2 : dp.1 current ≤ dp.1 current + ((lw : ℚ) : WithTop ℚ) :=
        le_add_of_nonneg_right (by exact_mod_cast hlw0)
      exact absurd hup (not_lt.mpr (h1.trans h2))
    have hchainx : Chain (Function.update dp.2 x (some current)) x (x :: Lc) :=
      Chain.cons x current Lc (Function.update_same _ _ _)
        (chain_update_notin dp.2 x _ hLc hxLc)
    obtain ⟨Lc2, hLcshape⟩ := chain_head dp.2 hLc
    have hxLclast : (x :: Lc).getLast? = some s := by
      rw [hLcshape, List.getLast?_cons_cons, ← hLcshape]
      exact hLclast
    refine ⟨⟨?_, ?_, ?_, ?_, ?_, ?_, ?_, ?_, ?_⟩, ?_, ?_, ?_⟩ <;> dsimp only
    · rw [Function.update_noteq (Ne.symm hxs)]
      exact hB.start_zero
    · intro v hv
      by_cases hvx : v = x
      · rw [hvx]; exact hxn
      · rw [Function.update_noteq hvx] at hv
        exact hB.dist_lt_top v hv
    · intro v c hv
      by_cases hvx : v = x
      · subst hvx
        rw [Function.update_same, halt] at hv
        rw [← WithTop.coe_inj.mp hv]
        exact hrx
      · rw [Function.update_noteq hvx] at hv
        exact hB.sound v c hv
    · intro u hun huv c hr
      have hux : u ≠ x := fun he => absurd hxunvis (he ▸ huv)
      rw [Function.update_noteq hux]
      exact hB.visited_opt u hun huv c hr
    · intro v c hv
      by_cases hvx : v = x
      · subst hvx
        rw [Function.update_same] at hv
        have hc : c = current := (Option.some.inj hv).symm
        subst hc
        refine ⟨hcn, hcv, lw, hnl, ?_, ?_⟩
        · rw [Function.update_same, Function.update_noteq (fun h => hxc h.symm)]
        · rw [Function.update_noteq (fun h => hxc h.symm)]
          exact hdc_ne
      · rw [Function.update_noteq hvx] at hv
        obtain ⟨hc1, hc2, l2, hadj2, heq2, hne2⟩ := hB.prev_link v c hv
        have hcx : c ≠ x := fun he => hc2 (he ▸ hxunvis)
        refine ⟨hc1, hc2, l2, hadj2, ?_, ?_⟩
        · rw [Function.update_noteq hvx, Function.update_noteq hcx]
          exact heq2
        · rw [Function.update_noteq hcx]
          exact hne2
    · intro v hv hvt
      by_cases hvx : v = x
      · subst hvx
        rw [Function.update_same] at hv
        cases hv
      · rw [Function.update_noteq hvx] at hv
        rw [Function.update_noteq hvx] at hvt
        exact hB.prev_none v hv hvt
    · intro v hvt
      by_cases hvx : v = x
      · subst hvx
        refine ⟨v :: Lc, hchainx, hxLclast, List.nodup_cons.mpr ⟨hxLc, hLcnodup⟩, ?_⟩
        intro y hy
        rcases List.mem_cons.mp hy with rfl | hm
        · constructor
          · rw [Function.update_same, halt]
            exact WithTop.coe_ne_top
          · exact hxn
        · have hyx : y ≠ v := fun he => hxLc (he ▸ hm)
          rw [Function.update_noteq hyx]
          exact hLcelts y hm
      · have hvt2 : dp.1 v ≠ ⊤ := by rwa [Function.update_noteq hvx] at hvt
        obtain ⟨Lv, hLv, hlastv, hnodupv, heltsv⟩ := hB.chain v hvt2
        by_cases hxLv : x ∈ Lv
        · obtain ⟨A, B, hAB⟩ := List.append_of_mem hxLv
          have hnodup2 : (A ++ x :: B).Nodup := hAB ▸ hnodupv
          rw [List.nodup_append] at hnodup2
          have hAnodup := hnodup2.1
          have hxA : x ∉ A := fun hm => hnodup2.2.2 hm (List.mem_cons_self _ _)
          have hsuf := chain_split_le dp.2 dp.1 hmono_old x hLv A B hAB
          have hgraft := chain_graft dp.2 (Function.update dp.2 x (some current)) x A
            (hAB ▸ hLv) hchainx
            (fun y hy => Function.update_noteq (by rintro rfl; exact hxA hy) _ _)
          refine ⟨A ++ x :: Lc, hgraft, ?_, ?_, ?_⟩
          · rw [getLast?_append_right A (x :: Lc) (by simp)]
            exact hxLclast
          · rw [List.nodup_append]
            refine ⟨hAnodup, List.nodup_cons.mpr ⟨hxLc, hLcnodup⟩, ?_⟩
            intro y hyA hyXLc
            rcases List.mem_cons.mp hyXLc with rfl | hyLc
            · exact hxA hyA
            · have h1 : dp.1 y ≤ dp.1 current := chain_mono dp.2 dp.1 hmono_old hLc y hyLc
              have h2 : dp.1 x ≤ dp.1 y := hsuf y hyA
              have h3 : dp.1 current ≤ dp.1 current + ((lw : ℚ) : WithTop ℚ) :=
                le_add_of_nonneg_right (by exact_mod_cast hlw0)
              exact absurd hup (not_lt.mpr ((h2.trans h1).trans h3))
          · intro y hy
            rcases List.mem_append.mp hy with hyA | hyXLc
            · have hyx : y ≠ x := fun he => hxA (he ▸ hyA)
              rw [Function.update_noteq hyx]
              exact heltsv y (by rw [hAB]; exact List.mem_append_left _ hyA)
            · rcases List.mem_cons.mp hyXLc with rfl | hyLc
              · constructor
                · rw [Function.update_same, halt]
                  exact WithTop.coe_ne_top
                · exact hxn
              · have hyx : y ≠ x := fun he => hxLc (he ▸ hyLc)
                rw [Function.update_noteq hyx]
                exact hLcelts y hyLc
        · refine ⟨Lv, chain_update_notin dp.2 x _ hLv hxLv, hlastv, hnodupv, ?_⟩
          intro y hy
          have hyx : y ≠ x := fun he => hxLv (he ▸ hy)
          rw [Function.update_noteq hyx]
          exact heltsv y hy
    · intro u hun huv
      have hux : u ≠ x := fun he => huv (he ▸ hxunvis)
      rw [Function.update_noteq hux]
      exact hB.frozen u hun huv
    · intro v
      by_cases hvx : v = x
      · subst hvx
        rw [Function.update_same]
        exact (le_of_lt hup).trans (hB.mono v)
      · rw [Function.update_noteq hvx]
        exact hB.mono v
    · rw [Function.update_noteq (fun h => hxc h.symm)]
    · intro v
      by_cases hvx : v = x
      · subst hvx
        rw [Function.update_same]
        exact le_of_lt hup
      · rw [Function.update_noteq hvx]
    · rw [Function.update_same, Function.update_noteq (fun h => hxc h.symm)]

/-- Helper: folding relaxation steps over any sublist of the adjacency
list preserves the relaxation invariant, keeps the distance of current,
only lowers distances, and leaves every folded lane relaxed. -/
theorem relax_fold (g : NavGraph) (s current : ℕ) (unvisited2 : List ℕ)
    (dist0 : ℕ → WithTop ℚ)
    (hw : ∀ a b, 0 ≤ g.calculate_distance a b)
    (hl : ∀ p ∈ g.lanes, p.1 < g.numVertices ∧ p.2 < g.numVertices)
    (hs : s < g.numVertices)
    (hcn : current < g.numVertices) (hcv : current ∉ unvisited2)
    (hct : dist0 current ≠ ⊤) :
    ∀ (rem : List (ℕ × ℚ)) (dp : (ℕ → WithTop ℚ) × (ℕ → Option ℕ)),
      (∀ nl ∈ rem, nl ∈ g.adjacency_list current) →
      RelaxState g s current unvisited2 dist0 dp →
      RelaxState g s current unvisited2 dist0 (rem.foldl (relaxStep current) dp) ∧
      (rem.foldl (relaxStep current) dp).1 current = dp.1 current ∧
      (∀ v, (rem.foldl (relaxStep current) dp).1 v ≤ dp.1 v) ∧
      (∀ nl ∈ rem, (rem.foldl (relaxStep current) dp).1 nl.1 ≤
        (rem.foldl (relaxStep current) dp).1 current + (nl.2 : WithTop ℚ)) := by
  intro rem
  induction rem with
  | nil =>
    intro dp _ hB
    exact ⟨hB, rfl, fun v => le_rfl, fun nl h => absurd h (List.not_mem_nil nl)⟩
  | cons nl rem ih =>
    intro dp hmem hB
    obtain ⟨hB1, hcur1, hle1, hrel1⟩ :=
      relax_one g s current unvisited2 dist0 hw hl hs hcn hcv hct dp hB nl
        (hmem nl (List.mem_cons_self _ _))
    obtain ⟨hB2, hcur2, hle2, hrel2⟩ :=
      ih (relaxStep current dp nl) (fun m hm => hmem m (List.mem_cons_of_mem _ hm)) hB1
    rw [List.foldl_cons]
    refine ⟨hB2, hcur2.trans hcur1, fun v => (hle2 v).trans (hle1 v), ?_⟩
    intro m hm
    rcases List.mem_cons.mp hm with rfl | hm2
    · have hx := hrel1
      rw [← hcur2] at hx
      exact (hle2 m.1).trans hx
    · exact hrel2 m hm2

/-- Helper: under the loop invariant, every reachability witness either
already bounds the tentative distance of its endpoint or passes through
some unvisited vertex whose tentative distance it bounds. -/
theorem via_opt (g : NavGraph) (s e : ℕ) (x : ℕ) (xs : List ℕ)
    (dist : ℕ → WithTop ℚ) (prev : ℕ → Option ℕ)
    (hw : ∀ a b, 0 ≤ g.calculate_distance a b)
    (hInv : DijkInv g s e (x :: xs) dist prev) :
    ∀ (v : ℕ) (c : ℚ), Reaches g s v c →
      dist v ≤ (c : WithTop ℚ) ∨ ∃ v0 ∈ x :: xs, dist v0 ≤ (c : WithTop ℚ) := by
  intro v c hr
  have hdec := reaches_decompose g s (fun u => u < g.numVertices ∧ u ∉ (x :: xs)) hw hr
  rcases hdec with hvia | hvia0
  · left
    exact via_relaxed g s _ dist hInv.start_zero
      (fun u hu => hInv.visited_relaxed u hu.1 hu.2) hvia
  · obtain ⟨v0, c0, hnS, hvia, hle⟩ := hvia0
    have hd0 : dist v0 ≤ ((c0 : ℚ) : WithTop ℚ) :=
      via_relaxed g s _ dist hInv.start_zero
        (fun u hu => hInv.visited_relaxed u hu.1 hu.2) hvia
    have hv0n : v0 < g.numVertices :=
      hInv.dist_lt_top v0 (fun ht => WithTop.coe_ne_top (top_le_iff.mp (ht ▸ hd0)))
    have hv0m : v0 ∈ x :: xs := by
      by_contra hm
      exact hnS ⟨hv0n, hm⟩
    right
    exact ⟨v0, hv0m, hd0.trans (WithTop.coe_le_coe.mpr hle)⟩

/-- Helper: one non-breaking iteration of the Dijkstra loop preserves
the loop invariant on the shortened unvisited list. -/
theorem dijk_pop (g : NavGraph) (s e : ℕ)
    (hw : ∀ a b, 0 ≤ g.calculate_distance a b)
    (hl : ∀ p ∈ g.lanes, p.1 < g.numVertices ∧ p.2 < g.numVertices)
    (hs : s < g.numVertices)
    (x : ℕ) (xs : List ℕ) (dist : ℕ → WithTop ℚ) (prev : ℕ → Option ℕ)
    (hInv : DijkInv g s e (x :: xs) dist prev)
    (hbrk : ¬ (argminList dist x xs = e ∨ dist (argminList dist x xs) = ⊤)) :
    DijkInv g s e ((x :: xs).erase (argminList dist x xs))
      (relaxNeighbors (argminList dist x xs)
        (g.adjacency_list (argminList dist x xs)) (dist, prev)).1
      (relaxNeighbors (argminList dist x xs)
        (g.adjacency_list (argminList dist x xs)) (dist, prev)).2 := by
  set current := argminList dist x xs with hcurdef
  push_neg at hbrk
  obtain ⟨hce, hct⟩ := hbrk
  have hcmem : current ∈ x :: xs := argminList_mem dist xs x
  have hcn : current < g.numVertices := hInv.unvis_sub current hcmem
  have hcv : current ∉ (x :: xs).erase current := by
    intro hm
    exact ((List.Nodup.mem_erase_iff hInv.unvis_nodup).mp hm).1 rfl
  have hcopt : ∀ c : ℚ, Reaches g s current c → dist current ≤ ((c : ℚ) : WithTop ℚ) := by
    intro c hr
    rcases via_opt g s e x xs dist prev hw hInv current c hr with h | h0
    · exact h
    · obtain ⟨v0, hv0, hd0⟩ := h0
      exact (argminList_le dist xs x v0 hv0).trans hd0
  have hB0 : RelaxState g s current ((x :: xs).erase current) dist (dist, prev) := by
    refine ⟨hInv.start_zero, hInv.dist_lt_top, hInv.sound, ?_, ?_, hInv.prev_none,
      hInv.chain, fun _ _ _ => rfl, fun _ => le_rfl⟩
    · intro u hun huv c hr
      by_cases huc : u = current
      · rw [huc]
        exact hcopt c (huc ▸ hr)
      · have hu2 : u ∉ (x :: xs) := fun hm =>
          huv ((List.Nodup.mem_erase_iff hInv.unvis_nodup).mpr ⟨huc, hm⟩)
        exact hInv.visited_opt u hun hu2 c hr
    · intro v c hv
      obtain ⟨hc1, hc2, l2, hadj, heq, hnt⟩ := hInv.prev_link v c hv
      exact ⟨hc1, fun hm => hc2 (List.mem_of_mem_erase hm), l2, hadj, heq, hnt⟩
  obtain ⟨hB, hcur, hle, hrel⟩ :=
    relax_fold g s current ((x :: xs).erase current) dist hw hl hs hcn hcv hct
      (g.adjacency_list current) (dist, prev) (fun nl h => h) hB0
  simp only [relaxNeighbors]
  refine ⟨fun v hv => hInv.unvis_sub v (List.mem_of_mem_erase hv),
    hInv.unvis_nodup.erase current, ?_, hB.start_zero, hB.dist_lt_top, hB.sound, ?_,
    hB.visited_opt, hB.prev_link, hB.prev_none, hB.chain⟩
  · exact (List.Nodup.mem_erase_iff hInv.unvis_nodup).mpr ⟨fun h => hce h.symm, hInv.end_mem⟩
  · intro u hun huv y l hadj
    by_cases huc : u = current
    · rw [huc]
      exact hrel (y, l) (huc ▸ hadj)
    · have hu2 : u ∉ (x :: xs) := fun hm =>
        huv ((List.Nodup.mem_erase_iff hInv.unvis_nodup).mpr ⟨huc, hm⟩)
      have hold := hInv.visited_relaxed u hun hu2 y l hadj
      have hfro := hB.frozen u hun huv
      calc ((g.adjacency_list current).foldl (relaxStep current) (dist, prev)).1 y
          ≤ dist y := hle y
        _ ≤ dist u + (l : WithTop ℚ) := hold
        _ = ((g.adjacency_list current).foldl (relaxStep current) (dist, prev)).1 u
            + (l : WithTop ℚ) := by rw [hfro]

/-- Helper: the Dijkstra loop, run with fuel at least the unvisited
count from any state satisfying the loop invariant, ends in a state
satisfying the exit guarantees, including optimality at the target. -/
theorem dijkstraLoop_spec (g : NavGraph) (s e : ℕ)
    (hw : ∀ a b, 0 ≤ g.calculate_distance a b)
    (hl : ∀ p ∈ g.lanes, p.1 < g.numVertices ∧ p.2 < g.numVertices)
    (hs : s < g.numVertices) :
    ∀ (fuel : ℕ) (unvisited : List ℕ) (dist : ℕ → WithTop ℚ) (prev : ℕ → Option ℕ),
      unvisited.length ≤ fuel →
      DijkInv g s e unvisited dist prev →
      DijkPost g s e (dijkstraLoop g e fuel unvisited dist prev) := by
  intro fuel
  induction fuel with
  | zero =>
    intro unvisited dist prev hlen hInv
    cases unvisited with
    | nil => exact absurd hInv.end_mem (List.not_mem_nil e)
    | cons x xs => simp at hlen
  | succ fuel ih =>
    intro unvisited dist prev hlen hInv
    cases unvisited with
    | nil => exact absurd hInv.end_mem (List.not_mem_nil e)
    | cons x xs =>
      by_cases hbrk : argminList dist x xs = e ∨ dist (argminList dist x xs) = ⊤
      · simp only [dijkstraLoop]
        rw [if_pos hbrk]
        refine ⟨hInv.start_zero, ?_, hInv.prev_none, hInv.chain, ?_⟩
        · intro v c hv
          obtain ⟨_, _, l2, hadj, heq, hnt⟩ := hInv.prev_link v c hv
          exact ⟨l2, hadj, heq, hnt⟩
        · intro c hr
          rcases via_opt g s e x xs dist prev hw hInv e c hr with h | h0
          · exact h
          · obtain ⟨v0, hv0, hd0⟩ := h0
            have hmin := argminList_le dist xs x v0 hv0
            rcases hbrk with hce | hct
            · exact (hce ▸ hmin).trans hd0
            · exfalso
              rw [hct] at hmin
              rw [top_le_iff.mp hmin] at hd0
              exact WithTop.coe_ne_top (top_le_iff.mp hd0)
      · have hpop := dijk_pop g s e hw hl hs x xs dist prev hInv hbrk
        have hlen2 : ((x :: xs).erase (argminList dist x xs)).length ≤ fuel := by
          rw [List.length_erase_of_mem (argminList_mem dist xs x)]
          simp only [List.length_cons] at hlen ⊢
          omega
        simp only [dijkstraLoop]
        rw [if_neg hbrk]
        exact ih _ _ _ hlen2 hpop

/-- Helper: the initial state of find_shortest_path satisfies the loop
invariant. -/
theorem dijk_init (g : NavGraph) (s e : ℕ) (hs : s < g.numVertices)
    (he : e < g.numVertices) :
    DijkInv g s e (List.range g.numVertices)
      (Function.update (fun _ => (⊤ : WithTop ℚ)) s ((0 : ℚ) : WithTop ℚ))
      (fun _ => none) := by
  refine ⟨fun v hv => List.mem_range.mp hv, List.nodup_range _, List.mem_range.mpr he,
    Function.update_same _ _ _, ?_, ?_, ?_, ?_, ?_, ?_, ?_⟩
  · intro v hv
    by_cases hvs : v = s
    · rw [hvs]; exact hs
    · exfalso
      apply hv
      rw [Function.update_noteq hvs]
  · intro v c hv
    by_cases hvs : v = s
    · rw [hvs, Function.update_same] at hv
      obtain rfl : (0 : ℚ) = c := WithTop.coe_inj.mp hv
      rw [hvs]
      exact Reaches.refl
    · rw [Function.update_noteq hvs] at hv
      exact absurd hv.symm WithTop.coe_ne_top
  · intro u hun hunv
    exact (hunv (List.mem_range.mpr hun)).elim
  · intro u hun hunv
    exact (hunv (List.mem_range.mpr hun)).elim
  · intro v c hv
    exact Option.noConfusion hv
  · intro v _ hv
    by_cases hvs : v = s
    · exact hvs
    · exfalso
      apply hv
      rw [Function.update_noteq hvs]
  · intro v hv
    have hvs : v = s := by
      by_contra hne
      apply hv
      rw [Function.update_noteq hne]
    refine ⟨[v], Chain.nil v rfl, by simp [hvs], List.nodup_singleton v, ?_⟩
    intro y hy
    rw [List.mem_singleton.mp hy]
    refine ⟨hv, ?_⟩
    rw [hvs]
    exact hs

/-- Claim C2. Shortest-path correctness of NavGraph.find_shortest_path:
for every graph with nonnegative lane lengths whose lane endpoints are
valid vertex indices, and every valid start and end index, the function
returns [start] when start equals end; returns the empty list when end
is unreachable from start; and when end is reachable it returns a
directed graph path from start to end whose sum of lane lengths is
minimal over all directed paths from start to end. -/
theorem find_shortest_path_correct (g : NavGraph) (s e : ℕ)
    (hw : ∀ a b, 0 ≤ g.calculate_distance a b)
    (hl : ∀ p ∈ g.lanes, p.1 < g.numVertices ∧ p.2 < g.numVertices)
    (hs : s < g.numVertices) (he : e < g.numVertices) :
    (s = e → g.find_shortest_path s e = [s]) ∧
    ((∀ c : ℚ, ¬ Reaches g s e c) → g.find_shortest_path s e = []) ∧
    (∀ c : ℚ, Reaches g s e c →
      IsGraphPath g s e (g.find_shortest_path s e) ∧
      ∀ q, IsGraphPath g s e q →
        pathCost g (g.find_shortest_path s e) ≤ pathCost g q) := by
  by_cases hse : s = e
  · have hF : g.find_shortest_path s e = [s] := by
      unfold NavGraph.find_shortest_path
      rw [if_pos hse]
    refine ⟨fun _ => hF, ?_, ?_⟩
    · intro hunreach
      exfalso
      apply hunreach 0
      rw [← hse]
      exact Reaches.refl
    · intro c _
      rw [hF]
      refine ⟨⟨rfl, by simp [hse], rfl⟩, ?_⟩
      intro q _
      have h0 : pathCost g [s] = 0 := rfl
      rw [h0]
      exact pathCost_nonneg g hw q
  · obtain ⟨dp, hdp⟩ : ∃ dp, dijkstraLoop g e g.numVertices (List.range g.numVertices)
        (Function.update (fun _ => (⊤ : WithTop ℚ)) s ((0 : ℚ) : WithTop ℚ))
        (fun _ => none) = dp := ⟨_, rfl⟩
    have hpost : DijkPost g s e dp := by
      rw [← hdp]
      exact dijkstraLoop_spec g s e hw hl hs g.numVertices (List.range g.numVertices) _ _
        (le_of_eq (List.length_range g.numVertices)) (dijk_init g s e hs he)
    have hF0 : g.find_shortest_path s e =
        (match dp.2 e with
          | none => []
          | some _ => (buildChainList dp.2 (g.numVertices + 1) e).reverse) := by
      simp only [NavGraph.find_shortest_path]
      rw [if_neg hse, hdp]
    rcases hdp2 : dp.2 e with _ | c0
    · rw [hdp2] at hF0
      have hF : g.find_shortest_path s e = [] := hF0
      refine ⟨fun h => absurd h hse, fun _ => hF, ?_⟩
      intro c hr
      exfalso
      have hle := hpost.opt_end c hr
      have hnt : dp.1 e ≠ ⊤ := fun ht => WithTop.coe_ne_top (top_le_iff.mp (ht ▸ hle))
      exact hse ((hpost.prev_none e hdp2 hnt).symm)
    · rw [hdp2] at hF0
      have hF : g.find_shortest_path s e =
          (buildChainList dp.2 (g.numVertices + 1) e).reverse := hF0
      obtain ⟨l0, hadj0, heq0, hct0⟩ := hpost.prev_link e c0 hdp2
      obtain ⟨qc, hqc⟩ := WithTop.ne_top_iff_exists.mp hct0
      have hqe : dp.1 e = ((qc + l0 : ℚ) : WithTop ℚ) := by
        rw [heq0, ← hqc, ← WithTop.coe_add]
      have hnt : dp.1 e ≠ ⊤ := by
        rw [hqe]
        exact WithTop.coe_ne_top
      obtain ⟨L, hL, hlast, hnodup, helts⟩ := hpost.chain e hnt
      have hsub : L ⊆ List.range g.numVertices := fun y hy =>
        List.mem_range.mpr (helts y hy).2
      have hlen : L.length ≤ g.numVertices := by
        have h1 := (List.subperm_of_subset hnodup hsub).length_le
        rwa [List.length_range] at h1
      have hbuild : buildChainList dp.2 (g.numVertices + 1) e = L :=
        chain_build dp.2 hL (g.numVertices + 1) (by omega)
      rw [hbuild] at hF
      obtain ⟨hch, hcost⟩ := chain_reverse_path g s dp.1 dp.2 hpost.start_zero
        (fun v c hv => hpost.prev_link v c hv) hpost.prev_none hL (qc + l0) hqe
      obtain ⟨L2, hL2⟩ := chain_head dp.2 hL
      have hpath : IsGraphPath g s e L.reverse := by
        refine ⟨?_, ?_, hch⟩
        · rw [List.head?_reverse]
          exact hlast
        · rw [List.getLast?_reverse, hL2]
          rfl
      refine ⟨fun h => absurd h hse, ?_, ?_⟩
      · intro hunreach
        exact (hunreach _ (path_to_reaches g s e L.reverse hpath)).elim
      · intro c hr
        rw [hF]
        refine ⟨hpath, ?_⟩
        intro q hq
        have hrq := path_to_reaches g s e q hq
        have hle := hpost.opt_end _ hrq
        rw [hqe] at hle
        rw [hcost]
        exact WithTop.coe_le_coe.mp hle

/-- Witness for C2: the theorem applied to the concrete three-vertex
chain graph at start 0 and end 2, with every hypothesis discharged. -/
theorem c2_witness :
    (∀ a b, 0 ≤ gC2.calculate_distance a b) ∧
    (∀ p ∈ gC2.lanes, p.1 < gC2.numVertices ∧ p.2 < gC2.numVertices) ∧
    0 < gC2.numVertices ∧ 2 < gC2.numVertices ∧
    ((0 = 2 → gC2.find_shortest_path 0 2 = [0]) ∧
     ((∀ c : ℚ, ¬ Reaches gC2 0 2 c) → gC2.find_shortest_path 0 2 = []) ∧
     (∀ c : ℚ, Reaches gC2 0 2 c →
       IsGraphPath gC2 0 2 (gC2.find_shortest_path 0 2) ∧
       ∀ q, IsGraphPath gC2 0 2 q →
         pathCost gC2 (gC2.find_shortest_path 0 2) ≤ pathCost gC2 q)) :=
  ⟨fun a b => zero_le_one, by decide, by decide, by decide,
    find_shortest_path_correct gC2 0 2 (fun a b => zero_le_one) (by decide)
      (by decide) (by decide)⟩
